import Mathlib

/-!
Formal model of the two Harbor custom agents in this repository
(src/custom_agents/pi_mono_agent.py and src/custom_agents/factory_droid.py):
configuration resolution in the constructors, shell command construction
(create_run_agent_commands), and the post-run usage extractors
(populate_context_post_run), together with verified properties of these
definitions.

Modelling conventions:
- Python numbers (ints and floats mixed by the extractors) are modelled by
  exact unnormalised rationals `Q` (a numerator and a positive natural
  denominator); every arithmetic step of the source is mirrored exactly, so
  the floating point rounding of CPython is the only abstracted aspect.
- Python exceptions are modelled by `Except PyErr`; each operation of the
  source that can raise (attribute access on a non-dict, `in` on a non-dict,
  adding a non-number) is modelled as a throwing operation, and every
  try/except of the source is modelled as the corresponding handler.
- The file system visible to an extractor is a partial map from relative
  path (below `logs_dir`) to file contents.
- All definitions are computable by kernel reduction, so concrete runs are
  checked with `decide` or `rfl`.
-/

set_option maxRecDepth 20000
set_option maxHeartbeats 2000000

/-- Exact unnormalised rational numbers: `num / den` with a positive natural
denominator. Unlike Mathlib `Rat` (whose normalisation goes through a
well-founded `Nat.gcd`), every operation on `Q` reduces in the kernel, so
concrete runs of the model are checked with `decide`. The semantics of a
`Q` is given by `Q.val : Q → ℚ`. -/
structure Q where
  num : Int
  den : ℕ+
deriving DecidableEq

/-- The rational number a `Q` denotes. -/
def Q.val (a : Q) : ℚ := (a.num : ℚ) / ((a.den : ℕ) : ℚ)

/-- The rational zero. -/
def Q.zero : Q := ⟨0, 1⟩

/-- Embed a natural number. -/
def Q.ofNat (n : Nat) : Q := ⟨n, 1⟩

/-- Exact addition (Python `+` on numbers). -/
def Q.add (a b : Q) : Q := ⟨a.num * (b.den : ℕ) + b.num * (a.den : ℕ), a.den * b.den⟩

/-- Exact multiplication (Python `*` on numbers). -/
def Q.mul (a b : Q) : Q := ⟨a.num * b.num, a.den * b.den⟩

/-- Exact division by a positive natural constant (Python true division `/`;
the source only divides by the constants 1000 and 5, and the number decoder
by powers of ten). -/
def Q.divNat (a : Q) (n : ℕ+) : Q := ⟨a.num, a.den * n⟩

/-- Negation. -/
def Q.neg (a : Q) : Q := ⟨-a.num, a.den⟩

/-- Numeric equality with zero (Python `== 0`; the denominator is positive,
so this is exactly `val = 0`). -/
def Q.isZero (a : Q) : Bool := a.num == 0

/-- Strict positivity (Python `> 0`). -/
def Q.isPos (a : Q) : Bool := 0 < a.num

theorem Q.den_cast_pos (a : Q) : (0 : ℚ) < ((a.den : ℕ) : ℚ) := by
  exact_mod_cast a.den.pos

theorem Q.den_cast_ne (a : Q) : (((a.den : ℕ) : ℚ)) ≠ 0 := ne_of_gt a.den_cast_pos

theorem Q.val_add (a b : Q) : (a.add b).val = a.val + b.val := by
  unfold Q.val Q.add
  have ha := a.den_cast_ne
  have hb := b.den_cast_ne
  push_cast
  field_simp
  try ring

theorem Q.val_mul (a b : Q) : (a.mul b).val = a.val * b.val := by
  unfold Q.val Q.mul
  have ha := a.den_cast_ne
  have hb := b.den_cast_ne
  push_cast
  field_simp

theorem Q.val_divNat (a : Q) (n : ℕ+) : (a.divNat n).val = a.val / ((n : ℕ) : ℚ) := by
  unfold Q.val Q.divNat
  have ha := a.den_cast_ne
  have hn : (((n : ℕ) : ℚ)) ≠ 0 := by exact_mod_cast n.ne_zero
  push_cast
  field_simp

theorem Q.val_neg (a : Q) : a.neg.val = -a.val := by
  unfold Q.val Q.neg
  push_cast
  ring

theorem Q.val_zero : Q.zero.val = 0 := by unfold Q.val Q.zero; norm_num

theorem Q.val_ofNat (n : Nat) : (Q.ofNat n).val = (n : ℚ) := by
  unfold Q.val Q.ofNat; norm_num

theorem Q.isZero_iff (a : Q) : a.isZero = true ↔ a.val = 0 := by
  unfold Q.isZero Q.val
  rw [div_eq_zero_iff]
  simp [a.den_cast_ne]

theorem Q.isPos_iff (a : Q) : a.isPos = true ↔ 0 < a.val := by
  unfold Q.isPos Q.val
  rw [lt_div_iff₀ a.den_cast_pos]
  simp [decide_eq_true_eq]
  try exact_mod_cast Iff.rfl

theorem Q.val_nonneg_of_num {a : Q} (h : 0 ≤ a.num) : 0 ≤ a.val := by
  unfold Q.val
  have := a.den_cast_pos
  positivity

/-! ## Characters and strings

Python string operations used by the source, re-implemented over the
character list of a Lean string so that everything reduces in the kernel. -/

/-- The single quote character (avoids an apostrophe literal in code). -/
def sqc : Char := Char.ofNat 39

/-- The backtick character. -/
def btc : Char := Char.ofNat 96

/-- The characters Python `str.strip()` removes (ASCII whitespace). -/
def pyWsChar (c : Char) : Bool :=
  c == ' ' || c == '\x09' || c == '\x0a' || c == '\x0d' || c == '\x0b' || c == '\x0c'

/-- Python `str.strip()`. -/
def pyStrip (s : String) : String :=
  String.mk (((s.data.dropWhile pyWsChar).reverse.dropWhile pyWsChar).reverse)

/-- Python `s.startswith(open-brace)`: the first character is a left brace. -/
def pyStartsWithBrace (s : String) : Bool :=
  match s.data with
  | c :: _ => c == '\x7b'
  | [] => false

/-- ASCII lower casing, the effect of Python `str.lower()` on the ASCII
strings this code compares. -/
def asciiLowerChar (c : Char) : Char :=
  if 65 ≤ c.toNat && c.toNat ≤ 90 then Char.ofNat (c.toNat + 32) else c

/-- Python `str.lower()` (ASCII letters). -/
def asciiLower (s : String) : String := String.mk (s.data.map asciiLowerChar)

/-- Substring search on character lists. -/
def listContainsSub (needle : List Char) : List Char → Bool
  | [] => needle.isEmpty
  | c :: t => needle.isPrefixOf (c :: t) || listContainsSub needle t

/-- Python `needle in hay` on strings. -/
def strContains (hay needle : String) : Bool := listContainsSub needle.data hay.data

/-- Splitting on the newline character, keeping empty parts: Python
`s.split(backslash-n)`. -/
def splitNlAux : List Char → List Char → List String
  | [], acc => [String.mk acc.reverse]
  | c :: cs, acc =>
    if c == '\x0a' then String.mk acc.reverse :: splitNlAux cs []
    else splitNlAux cs (c :: acc)

/-- Python `content.split()` on a newline separator. -/
def pySplitNl (s : String) : List String := splitNlAux s.data []

/-- The list of lines produced by iterating a Python text file (each line
keeps its trailing newline; a final fragment without a newline is kept). -/
def pyLines (s : String) : List String :=
  match (pySplitNl s).reverse with
  | [] => []
  | last :: revInit =>
    let withNl := revInit.reverse.map (fun p => p ++ String.mk ['\x0a'])
    if last = "" then withNl else withNl ++ [last]

/-- Python `s.split(sep, 1)`: the part before the first occurrence of `sep`
and, when `sep` occurs, the remainder after it. -/
def pySplit1 (s : String) (sep : Char) : String × Option String :=
  let pre := s.data.takeWhile (fun c => !(c == sep))
  match s.data.dropWhile (fun c => !(c == sep)) with
  | [] => (s, none)
  | _ :: tl => (String.mk pre, some (String.mk tl))

/-- Digits of a natural number (fuel-based so that it reduces). -/
def natToStrAux : Nat → Nat → List Char
  | 0, _ => []
  | fuel + 1, n =>
    if n < 10 then [Char.ofNat (48 + n)]
    else natToStrAux fuel (n / 10) ++ [Char.ofNat (48 + n % 10)]

/-- Decimal rendering of a natural number (Python `str(n)` for `n ≥ 0`). -/
def natToStr (n : Nat) : String := String.mk (natToStrAux (n + 1) n)

/-- Decimal rendering of an integer. -/
def intToStr (n : Int) : String :=
  if n < 0 then "-" ++ natToStr n.natAbs else natToStr n.natAbs

/-- Concatenation of a list of strings with a separator: Python
`sep.join(parts)`. -/
def strJoin (sep : String) : List String → String
  | [] => ""
  | [x] => x
  | x :: xs => x ++ sep ++ strJoin sep xs

/-- First `n` characters of a string: Python `s[:n]`. -/
def strTake (s : String) (n : Nat) : String := String.mk (s.data.take n)

/-! ## JSON values and `json.loads`

The subset of Python `json` semantics exercised by the extractors: a
newline-delimited log line is decoded to a value or rejected. Numbers are
decoded to exact rationals `Q`. -/

/-- A decoded JSON value. Objects keep their key/value pairs in input order
(the keys appearing in this development are distinct, matching a Python
dict). -/
inductive Json where
  | null : Json
  | bool (b : Bool) : Json
  | num (q : Q) : Json
  | str (s : String) : Json
  | arr (elems : List Json) : Json
  | obj (fields : List (String × Json)) : Json

/-- Look a key up in a decoded object (Python dict indexing; later duplicate
keys would win in Python, so the search runs over the reversed list). -/
def jLookup (fields : List (String × Json)) (k : String) : Option Json :=
  (fields.reverse.find? (fun p => p.1 == k)).map (fun p => p.2)

/-- JSON inter-token whitespace. -/
def jIsWs (c : Char) : Bool := c == ' ' || c == '\x09' || c == '\x0a' || c == '\x0d'

/-- Skip JSON whitespace. -/
def jSkipWs (cs : List Char) : List Char := cs.dropWhile jIsWs

/-- Value of a hexadecimal digit. -/
def jHexVal (c : Char) : Option Nat :=
  if 48 ≤ c.toNat && c.toNat ≤ 57 then some (c.toNat - 48)
  else if 97 ≤ c.toNat && c.toNat ≤ 102 then some (c.toNat - 87)
  else if 65 ≤ c.toNat && c.toNat ≤ 70 then some (c.toNat - 55)
  else none

/-- Body of a JSON string after the opening quote: content so far (reversed)
and remaining input. -/
def jParseStrAux : Nat → List Char → List Char → Option (String × List Char)
  | 0, _, _ => none
  | fuel + 1, acc, cs =>
    match cs with
    | [] => none
    | c :: rest =>
      if c == '"' then some (String.mk acc.reverse, rest)
      else if c == '\\' then
        match rest with
        | [] => none
        | e :: rest2 =>
          if e == '"' then jParseStrAux fuel ('"' :: acc) rest2
          else if e == '\\' then jParseStrAux fuel ('\\' :: acc) rest2
          else if e == '/' then jParseStrAux fuel ('/' :: acc) rest2
          else if e == 'b' then jParseStrAux fuel ('\x08' :: acc) rest2
          else if e == 'f' then jParseStrAux fuel ('\x0c' :: acc) rest2
          else if e == 'n' then jParseStrAux fuel ('\x0a' :: acc) rest2
          else if e == 'r' then jParseStrAux fuel ('\x0d' :: acc) rest2
          else if e == 't' then jParseStrAux fuel ('\x09' :: acc) rest2
          else if e == 'u' then
            match rest2 with
            | h1 :: h2 :: h3 :: h4 :: rest3 =>
              match jHexVal h1, jHexVal h2, jHexVal h3, jHexVal h4 with
              | some a, some b, some c2, some d =>
                jParseStrAux fuel (Char.ofNat (((a * 16 + b) * 16 + c2) * 16 + d) :: acc) rest3
              | _, _, _, _ => none
            | _ => none
          else none
      else if c.toNat < 32 then none
      else jParseStrAux fuel (c :: acc) rest

/-- Decimal digit predicate. -/
def jIsDigit (c : Char) : Bool := 48 ≤ c.toNat && c.toNat ≤ 57

/-- Numeric value of a digit run. -/
def jDigitsToNat (ds : List Char) : Nat := ds.foldl (fun a c => a * 10 + (c.toNat - 48)) 0

/-- Optional fraction part: digits after a decimal point. -/
def jParseFrac (cs : List Char) : Option (List Char × List Char) :=
  match cs with
  | '.' :: r =>
    let ds := r.takeWhile jIsDigit
    if ds.isEmpty then none else some (ds, r.dropWhile jIsDigit)
  | _ => some ([], cs)

/-- Exponent digits after `e`/`E` with optional sign. -/
def jParseExpDigits (cs : List Char) : Option (Bool × List Char × List Char) :=
  let (sgn, cs1) : Bool × List Char :=
    match cs with
    | '-' :: r => (true, r)
    | '+' :: r => (false, r)
    | _ => (false, cs)
  let ds := cs1.takeWhile jIsDigit
  if ds.isEmpty then none else some (sgn, ds, cs1.dropWhile jIsDigit)

/-- Optional exponent part. -/
def jParseExpPart (cs : List Char) : Option (Bool × List Char × List Char) :=
  match cs with
  | 'e' :: r => jParseExpDigits r
  | 'E' :: r => jParseExpDigits r
  | _ => some (false, [], cs)

/-- Scale a rational by `10 ^ exponent` with a signed exponent. -/
def jApplyExp (m : Q) (negExp : Bool) (eDigits : List Char) : Q :=
  let e := jDigitsToNat eDigits
  if negExp then m.divNat ((10 : ℕ+) ^ e) else m.mul (Q.ofNat (10 ^ e))

/-- A JSON number at the head of the input (the RFC 8259 grammar, as
enforced by Python `json`). -/
def jParseNum (cs : List Char) : Option (Q × List Char) :=
  let (neg, cs1) : Bool × List Char :=
    match cs with
    | '-' :: r => (true, r)
    | _ => (false, cs)
  let ip := cs1.takeWhile jIsDigit
  let cs2 := cs1.dropWhile jIsDigit
  if ip.isEmpty then none
  else if 1 < ip.length && (ip.headD '0' == '0') then none
  else
    match jParseFrac cs2 with
    | none => none
    | some (fr, cs3) =>
      match jParseExpPart cs3 with
      | none => none
      | some (negExp, eDigits, cs4) =>
        let base : Q := (Q.ofNat (jDigitsToNat ip)).add
          ((Q.ofNat (jDigitsToNat fr)).divNat ((10 : ℕ+) ^ fr.length))
        let mag := jApplyExp base negExp eDigits
        some ((if neg then mag.neg else mag), cs4)

/-- Which production the recursive descent is in: a value, the members of an
object after its opening brace, or the elements of an array. -/
inductive JPK where
  | val : JPK
  | members (acc : List (String × Json)) : JPK
  | elems (acc : List Json) : JPK

/-- Recursive descent over the JSON grammar, fuel-indexed so that the
recursion is structural and reduces in the kernel. -/
def jParseGo : Nat → JPK → List Char → Option (Json × List Char)
  | 0, _, _ => none
  | fuel + 1, JPK.val, cs0 =>
    match jSkipWs cs0 with
    | [] => none
    | c :: rest =>
      if c == '"' then
        match jParseStrAux (rest.length + 1) [] rest with
        | some (s, r) => some (Json.str s, r)
        | none => none
      else if c == '\x7b' then
        match jSkipWs rest with
        | '\x7d' :: r2 => some (Json.obj [], r2)
        | r1 => jParseGo fuel (JPK.members []) r1
      else if c == '[' then
        match jSkipWs rest with
        | ']' :: r2 => some (Json.arr [], r2)
        | r1 => jParseGo fuel (JPK.elems []) r1
      else if c == 't' then
        match c :: rest with
        | 't' :: 'r' :: 'u' :: 'e' :: r => some (Json.bool true, r)
        | _ => none
      else if c == 'f' then
        match c :: rest with
        | 'f' :: 'a' :: 'l' :: 's' :: 'e' :: r => some (Json.bool false, r)
        | _ => none
      else if c == 'n' then
        match c :: rest with
        | 'n' :: 'u' :: 'l' :: 'l' :: r => some (Json.null, r)
        | _ => none
      else
        match jParseNum (c :: rest) with
        | some (q, r) => some (Json.num q, r)
        | none => none
  | fuel + 1, JPK.members acc, cs =>
    match jSkipWs cs with
    | '"' :: rest =>
      match jParseStrAux (rest.length + 1) [] rest with
      | none => none
      | some (k, r1) =>
        match jSkipWs r1 with
        | ':' :: r2 =>
          match jParseGo fuel JPK.val r2 with
          | none => none
          | some (v, r3) =>
            match jSkipWs r3 with
            | ',' :: r4 => jParseGo fuel (JPK.members (acc ++ [(k, v)])) r4
            | '\x7d' :: r4 => some (Json.obj (acc ++ [(k, v)]), r4)
            | _ => none
        | _ => none
    | _ => none
  | fuel + 1, JPK.elems acc, cs =>
    match jParseGo fuel JPK.val cs with
    | none => none
    | some (v, r1) =>
      match jSkipWs r1 with
      | ',' :: r2 => jParseGo fuel (JPK.elems (acc ++ [v])) r2
      | ']' :: r2 => some (Json.arr (acc ++ [v]), r2)
      | _ => none

/-- Python `json.loads`: the whole input must be one JSON value surrounded
by optional whitespace; `none` models a raised `json.JSONDecodeError`. -/
def jsonLoads (s : String) : Option Json :=
  match jParseGo (s.data.length + 1) JPK.val s.data with
  | some (v, rest) => if (jSkipWs rest).isEmpty then some v else none
  | none => none

/-! ## Python exceptions

The extractor code can raise at runtime: attribute access `.get(...)` on a
value that is not a dict raises `AttributeError`, the `in` operator and
indexing on a non-dict raise `TypeError`, adding a non-number to an int
raises `TypeError`, and indexing a dict with an absent key raises
`KeyError`. These are the raising operations reachable in
`populate_context_post_run`; `Except PyErr` is the uncaught-exception
channel. -/

/-- A raised Python exception (the message text is abstracted to the
exception class, which is all the handlers of the source distinguish). -/
inductive PyErr where
  | attrError : PyErr
  | typeError : PyErr
  | keyError : PyErr
deriving DecidableEq

/-- The string a handler stores for an exception (`str(e)`; the concrete
message text of CPython is abstracted). -/
def pyErrStr : PyErr → String
  | PyErr.attrError => "AttributeError"
  | PyErr.typeError => "TypeError"
  | PyErr.keyError => "KeyError"

/-- Whether an `Except` result is a normal return. -/
def exOk {ε α : Type} : Except ε α → Bool
  | Except.ok _ => true
  | Except.error _ => false

/-- Python `==` between a decoded JSON value and a string literal: true only
when the value is that string. -/
def jEqStr (v : Json) (s : String) : Bool :=
  match v with
  | Json.str t => t == s
  | _ => false

/-- Python `v.get(k)` (default `None`): raises `AttributeError` when `v` is
not a dict. -/
def jget (v : Json) (k : String) : Except PyErr Json :=
  match v with
  | Json.obj fs => Except.ok ((jLookup fs k).getD Json.null)
  | _ => Except.error PyErr.attrError

/-- Python `v.get(k, d)`: raises `AttributeError` when `v` is not a dict. -/
def jgetD (v : Json) (k : String) (d : Json) : Except PyErr Json :=
  match v with
  | Json.obj fs => Except.ok ((jLookup fs k).getD d)
  | _ => Except.error PyErr.attrError

/-- Python `k in v`: raises `TypeError` when `v` is not a dict. -/
def jHasKey (v : Json) (k : String) : Except PyErr Bool :=
  match v with
  | Json.obj fs => Except.ok (jLookup fs k).isSome
  | _ => Except.error PyErr.typeError

/-- Python `v[k]`: `TypeError` on a non-dict, `KeyError` on an absent key. -/
def jIndex (v : Json) (k : String) : Except PyErr Json :=
  match v with
  | Json.obj fs =>
    match jLookup fs k with
    | some x => Except.ok x
    | none => Except.error PyErr.keyError
  | _ => Except.error PyErr.typeError

/-- Coerce a decoded JSON value to a number for Python `+`: numbers are
themselves, booleans count as 0/1 (Python `bool` is an `int`), anything else
raises `TypeError`. -/
def pyNumVal : Json → Except PyErr Q
  | Json.num q => Except.ok q
  | Json.bool b => Except.ok (if b then Q.ofNat 1 else Q.zero)
  | _ => Except.error PyErr.typeError

/-! ## Python `str`/`repr` of decoded JSON values

`populate_context_post_run` of the pi-mono agent measures
`len(str(event["message"]["content"]))` in its fallback path. `str` of a
decoded string is the string itself; for other values it is the Python
`repr` rendering. The repr of floats is abstracted (exact digit strings of
CPython floats are out of scope); nesting is evaluated with a fixed fuel,
large beyond any transcript this code meets. -/

/-- Python `repr` of a string: quote choice and the standard escapes. -/
def pyReprStr (s : String) : String :=
  let q : Char := if s.data.contains sqc && !(s.data.contains '"') then '"' else sqc
  String.mk (q :: s.data.foldr (fun c acc =>
    (if c == '\\' then ['\\', '\\']
     else if c == q then ['\\', q]
     else if c == '\x0a' then ['\\', 'n']
     else if c == '\x0d' then ['\\', 'r']
     else if c == '\x09' then ['\\', 't']
     else [c]) ++ acc) [q])

/-- Decimal rendering of a `Q` (Python number repr; non-integral values are
rendered as an exact fraction, abstracting CPython float digits). -/
def pyNumRepr (a : Q) : String :=
  if (a.den : ℕ) = 1 then intToStr a.num
  else intToStr a.num ++ "/" ++ natToStr (a.den : ℕ)

/-- Python `repr` of a decoded JSON value, fuel-bounded in the nesting
depth. -/
def pyReprGo : Nat → Json → String
  | 0, _ => ""
  | _ + 1, Json.null => "None"
  | _ + 1, Json.bool true => "True"
  | _ + 1, Json.bool false => "False"
  | _ + 1, Json.num q => pyNumRepr q
  | _ + 1, Json.str s => pyReprStr s
  | fuel + 1, Json.arr xs => "[" ++ strJoin ", " (xs.map (pyReprGo fuel)) ++ "]"
  | fuel + 1, Json.obj fs =>
    String.mk ['\x7b'] ++
      strJoin ", " (fs.map (fun p => pyReprStr p.1 ++ ": " ++ pyReprGo fuel p.2)) ++
      String.mk ['\x7d']

/-- Python `str` of a decoded JSON value. -/
def pyStr (j : Json) : String :=
  match j with
  | Json.str s => s
  | _ => pyReprGo 100 j

/-! ## The pi-mono usage extractor

Model of `PiMonoAgent.populate_context_post_run`
(src/custom_agents/pi_mono_agent.py, lines 293-432). -/

/-- The running totals of the streaming scan (`total_input_tokens`,
`total_output_tokens`, `total_cache_read_tokens`, `total_cache_write_tokens`,
`total_cost`). -/
structure PiTotals where
  inp : Q
  out : Q
  cacheRead : Q
  cacheWrite : Q
  cost : Q
deriving DecidableEq

/-- All totals start at zero. -/
def piZero : PiTotals := ⟨Q.zero, Q.zero, Q.zero, Q.zero, Q.zero⟩

/-- One accumulation `acc += usage.get(k, 0)`: `.get` raises on a non-dict
`usage`, and the addition raises on a non-numeric value. -/
def usageGetAdd (usage : Json) (k : String) (acc : Q) : Except PyErr Q :=
  match jgetD usage k (Json.num Q.zero) with
  | Except.error e => Except.error e
  | Except.ok v =>
    match pyNumVal v with
    | Except.error e => Except.error e
    | Except.ok q => Except.ok (acc.add q)

/-- The cost accumulation: when `"cost" in usage`, a dict cost contributes
`cost.get("total", 0)` and any other cost value is added directly. -/
def piCostAdd (usage : Json) (acc : Q) : Except PyErr Q :=
  match jHasKey usage "cost" with
  | Except.error e => Except.error e
  | Except.ok false => Except.ok acc
  | Except.ok true =>
    match jIndex usage "cost" with
    | Except.error e => Except.error e
    | Except.ok (Json.obj fs) =>
      match pyNumVal ((jLookup fs "total").getD (Json.num Q.zero)) with
      | Except.error e => Except.error e
      | Except.ok q => Except.ok (acc.add q)
    | Except.ok v =>
      match pyNumVal v with
      | Except.error e => Except.error e
      | Except.ok q => Except.ok (acc.add q)

/-- Processing one decoded event: the guard
`event.get("type") == "message_end" and "message" in event and
event["message"].get("role") == "assistant" and "usage" in event["message"]`
followed by the five accumulations, with Python evaluation order and
short-circuiting. -/
def piProcessEvent (t : PiTotals) (ev : Json) : Except PyErr PiTotals :=
  match jget ev "type" with
  | Except.error e => Except.error e
  | Except.ok ty =>
    if jEqStr ty "message_end" then
      match jHasKey ev "message" with
      | Except.error e => Except.error e
      | Except.ok false => Except.ok t
      | Except.ok true =>
        match jIndex ev "message" with
        | Except.error e => Except.error e
        | Except.ok msg =>
          match jget msg "role" with
          | Except.error e => Except.error e
          | Except.ok role =>
            if jEqStr role "assistant" then
              match jHasKey msg "usage" with
              | Except.error e => Except.error e
              | Except.ok false => Except.ok t
              | Except.ok true =>
                match jIndex msg "usage" with
                | Except.error e => Except.error e
                | Except.ok usage =>
                  match usageGetAdd usage "input" t.inp with
                  | Except.error e => Except.error e
                  | Except.ok i2 =>
                    match usageGetAdd usage "output" t.out with
                    | Except.error e => Except.error e
                    | Except.ok o2 =>
                      match usageGetAdd usage "cacheRead" t.cacheRead with
                      | Except.error e => Except.error e
                      | Except.ok cr2 =>
                        match usageGetAdd usage "cacheWrite" t.cacheWrite with
                        | Except.error e => Except.error e
                        | Except.ok cw2 =>
                          match piCostAdd usage t.cost with
                          | Except.error e => Except.error e
                          | Except.ok c2 => Except.ok ⟨i2, o2, cr2, cw2, c2⟩
            else Except.ok t
    else Except.ok t

/-- Processing one raw transcript line: strip, skip blank lines and lines
not opening a JSON object, decode (a decode failure is caught by the inner
`except json.JSONDecodeError: continue`), then process the event. -/
def piLineStep (t : PiTotals) (line : String) : Except PyErr PiTotals :=
  let l := pyStrip line
  if l = "" || !pyStartsWithBrace l then Except.ok t
  else
    match jsonLoads l with
    | none => Except.ok t
    | some ev => piProcessEvent t ev

/-- The streaming scan over all lines of the transcript. -/
def piScanAux (t : PiTotals) : List String → Except PyErr PiTotals
  | [] => Except.ok t
  | l :: ls =>
    match piLineStep t l with
    | Except.error e => Except.error e
    | Except.ok t2 => piScanAux t2 ls

/-- The scan started from zero totals. -/
def piScan (lines : List String) : Except PyErr PiTotals := piScanAux piZero lines

/-- The character count one line contributes to the fallback estimate: the
line must contain the exact substrings `"role":"assistant"` and
`"content"`, decode as JSON, and carry `message.content`; every failure
inside is swallowed by the bare `except: pass` and contributes nothing. -/
def piContentLineChars (line : String) : Nat :=
  if strContains line "\"role\":\"assistant\"" && strContains line "\"content\"" then
    match jsonLoads (pyStrip line) with
    | none => 0
    | some ev =>
      match ev with
      | Json.obj fs =>
        match jLookup fs "message" with
        | none => 0
        | some msg =>
          match msg with
          | Json.obj mfs =>
            match jLookup mfs "content" with
            | none => 0
            | some content => (pyStr content).length
          | _ => 0
      | _ => 0
  else 0

/-- `actual_content_chars` of the fallback pass. -/
def piFallbackChars (lines : List String) : Nat :=
  lines.foldl (fun acc line => acc + piContentLineChars line) 0

/-- The per-provider fallback cost table `cost_per_1k_out` (the Python float
literals 0.015, 0.002, 0.001, 0.0 as exact rationals). -/
def piRates : List (String × Q) :=
  [("anthropic", ⟨15, 1000⟩), ("openai", ⟨2, 1000⟩), ("google", ⟨1, 1000⟩), ("groq", ⟨0, 1⟩)]

/-- Table lookup with the default 0.002. -/
def piRate (provider : String) : Q :=
  ((piRates.find? (fun p => p.1 == provider)).map (fun p => p.2)).getD ⟨2, 1000⟩

/-- The numbers `0 ≤ n < 20` (used for the bounded 20-line prefix read and
the 5 candidate command outputs; kernel-reducible). -/
def natUpTo : Nat → List Nat
  | 0 => []
  | n + 1 => natUpTo n ++ [n]

/-- The 20 strings produced by `[next(f, two-quotes) for _ in range(20)]`:
the first 20 lines of the file, padded with empty strings. -/
def piFirstLines (content : String) : List String :=
  (natUpTo 20).map (fun i => (pyLines content).getD i "")

/-- `has_errors`: a case-insensitive occurrence of `error` or `failed` in
the first 20 lines. -/
def piHasErrors (content : String) : Bool :=
  (piFirstLines content).any (fun l =>
    strContains (asciiLower l) "error" || strContains (asciiLower l) "failed")

/-! ## The shared result record -/

/-- A metadata value (the JSON-compatible values this code stores). -/
inductive MVal where
  | s (v : String) : MVal
  | b (v : Bool) : MVal
  | n (v : Q) : MVal
  | null : MVal
  | strs (v : List String) : MVal
deriving DecidableEq

/-- The `AgentContext` fields this code populates. Every field starts
unset (`None`). -/
structure Ctx where
  n_input_tokens : Option Q := none
  n_output_tokens : Option Q := none
  n_cache_tokens : Option Q := none
  cost_usd : Option Q := none
  metadata : Option (List (String × MVal)) := none
deriving DecidableEq

/-- Look a key up in the metadata of a record. -/
def metaGet (c : Ctx) (k : String) : Option MVal :=
  match c.metadata with
  | none => none
  | some kvs => ((kvs.find? (fun p => p.1 == k)).map (fun p => p.2))

/-- The file system visible to an extractor: a partial map from relative
path below `logs_dir` to file contents. -/
abbrev FS := String → Option String

/-! ## The pi-mono record construction -/

/-- The configuration fields of a constructed `PiMonoAgent` that
`populate_context_post_run` and `create_run_agent_commands` read. -/
structure PiCfg where
  provider : String
  pi_model : Option String
  output_mode : String
  no_session : Bool
deriving DecidableEq

/-- The model name stored in metadata: `self.pi_model or "default"`. -/
def piModelDisplay (cfg : PiCfg) : String :=
  match cfg.pi_model with
  | some m => if m = "" then "default" else m
  | none => "default"

/-- The metadata-only record for a missing output file. -/
def piMissingMeta (cfg : PiCfg) : List (String × MVal) :=
  [("error", MVal.s "No output file found"),
   ("provider", MVal.s cfg.provider),
   ("model", MVal.s (piModelDisplay cfg))]

/-- The metadata-only record the top-level `except Exception` handler
builds. -/
def piErrMeta (cfg : PiCfg) (e : PyErr) : List (String × MVal) :=
  [("error", MVal.s (pyErrStr e)),
   ("provider", MVal.s cfg.provider),
   ("model", MVal.s (piModelDisplay cfg))]

/-- Building the record from the scan totals: the four context assignments,
the fallback estimate when both token totals are zero, and the metadata
with the success flag. -/
def piBuild (cfg : PiCfg) (content : String) (tot : PiTotals) : Ctx :=
  let c0 : Ctx :=
    { n_input_tokens := some tot.inp, n_output_tokens := some tot.out,
      n_cache_tokens := some tot.cacheRead, cost_usd := some tot.cost,
      metadata := none }
  let c1 : Ctx :=
    if tot.inp.isZero && tot.out.isZero then
      let chars := piFallbackChars (pyLines content)
      let nin : Q := Q.ofNat 500
      let nout : Q := Q.ofNat (max (chars / 4) 100)
      let rate : Q := piRate cfg.provider
      { c0 with
        n_input_tokens := some nin,
        n_output_tokens := some nout,
        cost_usd := some (((nin.divNat 1000).mul (rate.divNat 5)).add
          ((nout.divNat 1000).mul rate)) }
    else c0
  { c1 with metadata := some (
      [("provider", MVal.s cfg.provider),
       ("model", MVal.s (piModelDisplay cfg)),
       ("output_mode", MVal.s cfg.output_mode),
       ("success", MVal.b (!piHasErrors content && tot.out.isPos)),
       ("session_saved", MVal.b (!cfg.no_session)),
       ("actual_api_usage", MVal.b (tot.inp.isPos || tot.out.isPos))]) }

/-- The body of the top-level `try` of `populate_context_post_run`, given
the contents of the output file. An `error` is an exception reaching the
top-level handler. -/
def piBody (cfg : PiCfg) (content : String) : Except PyErr Ctx :=
  match piScan (pyLines content) with
  | Except.error e => Except.error e
  | Except.ok tot => Except.ok (piBuild cfg content tot)

/-- The record produced for an existing output file: the body under the
top-level `except Exception` handler. -/
def piPopulateContent (cfg : PiCfg) (content : String) : Ctx :=
  match piBody cfg content with
  | Except.ok c => c
  | Except.error e => { metadata := some (piErrMeta cfg e) }

/-- Resolution of the output file: `pi_output.log`, then the
`command-1` fallback. -/
def piOutputFile (fs : FS) : Option String :=
  match fs "pi_output.log" with
  | some c => some c
  | none => fs "command-1/pi_output.log"

/-- `PiMonoAgent.populate_context_post_run` as a record transformer. -/
def piPopulate (cfg : PiCfg) (fs : FS) : Ctx :=
  match piOutputFile fs with
  | none => { metadata := some (piMissingMeta cfg) }
  | some content => piPopulateContent cfg content

/-- A Python `try`/`except Exception` wrapper: the handler turns any raised
exception into a normal return. -/
def pyTry (body : Except PyErr Ctx) (handler : PyErr → Ctx) : Except PyErr Ctx :=
  match body with
  | Except.ok c => Except.ok c
  | Except.error e => Except.ok (handler e)

/-- `PiMonoAgent.populate_context_post_run` with the uncaught-exception
channel kept visible: an `error` here would be an exception escaping to
the caller. -/
def piPopulateE (cfg : PiCfg) (fs : FS) : Except PyErr Ctx :=
  match piOutputFile fs with
  | none => Except.ok { metadata := some (piMissingMeta cfg) }
  | some content => pyTry (piBody cfg content) (fun e => { metadata := some (piErrMeta cfg e) })

/-- The cacheRead amount one line contributes when scanned from zero totals
(zero for skipped, malformed or non-qualifying lines). -/
def piLineCacheRead (line : String) : Q :=
  match piLineStep piZero line with
  | Except.ok d => d.cacheRead
  | Except.error _ => Q.zero

/-! ## The factory-droid usage extractor

Model of `FactoryDroidAgent.populate_context_post_run`
(src/custom_agents/factory_droid.py, lines 318-417). -/

/-- The configuration fields of a constructed `FactoryDroidAgent` that the
extractor and the command builder read. -/
structure FdCfg where
  droid_model : String
  reasoning_effort : String
  last_instruction : Option String
deriving DecidableEq

/-- The `cost_per_1k_tokens` table (Python float literals as exact
rationals). -/
def fdCostTable : List (String × Q) :=
  [("sonnet", ⟨3, 1000⟩), ("opus", ⟨15, 1000⟩), ("haiku", ⟨8, 10000⟩),
   ("GPT-5", ⟨1, 100⟩), ("droid-core", ⟨2, 1000⟩)]

/-- Table lookup with the default 0.003. -/
def fdRate (model : String) : Q :=
  ((fdCostTable.find? (fun p => p.1 == model)).map (fun p => p.2)).getD ⟨3, 1000⟩

/-- The completion marker searched for in the transcript. -/
def fdSuccessLit : String := "Factory Droid Session Complete"

/-- The metadata-only record of the `except Exception` handler. -/
def fdErrMeta (cfg : FdCfg) (e : PyErr) : List (String × MVal) :=
  [("error", MVal.s (pyErrStr e)), ("droid_model", MVal.s cfg.droid_model)]

/-- Building the factory-droid record from the transcript contents: size
heuristics for the token counts, the cost table, the completion-marker
success flag and the collected error lines. -/
def fdBuild (cfg : FdCfg) (content : String) : Ctx :=
  let lines := pySplitNl content
  let char_count := content.length
  let estimated_tokens := char_count / 4
  let approx_input : Option Nat :=
    match cfg.last_instruction with
    | some ins => some (max (ins.length / 4) 1)
    | none => none
  let nout : Option Nat := if estimated_tokens > 0 then some estimated_tokens else none
  let rate := fdRate cfg.droid_model
  let total_tokens : Nat := approx_input.getD 0 + nout.getD 0
  let cost : Option Q :=
    if total_tokens ≠ 0 then some (((Q.ofNat total_tokens).divNat 1000).mul rate) else none
  let error_lines := lines.filter (fun l =>
    strContains (asciiLower l) "error" || strContains (asciiLower l) "failed")
  { n_input_tokens := approx_input.map Q.ofNat,
    n_output_tokens := nout.map Q.ofNat,
    n_cache_tokens := none,
    cost_usd := cost,
    metadata := some (
      [("droid_model", MVal.s cfg.droid_model),
       ("reasoning_effort", MVal.s cfg.reasoning_effort),
       ("success", MVal.b (strContains content fdSuccessLit)),
       ("output_lines", MVal.n (Q.ofNat lines.length)),
       ("errors", if error_lines.isEmpty then MVal.null else MVal.strs (error_lines.take 5))]) }

/-- The body of the factory-droid `try`: none of its operations can raise
in this model (plain file read, splitting and counting), so it always
returns. -/
def fdBody (cfg : FdCfg) (content : String) : Except PyErr Ctx :=
  Except.ok (fdBuild cfg content)

/-- The record produced for an existing output file. -/
def fdPopulateContent (cfg : FdCfg) (content : String) : Ctx :=
  match fdBody cfg content with
  | Except.ok c => c
  | Except.error e => { metadata := some (fdErrMeta cfg e) }

/-- The candidate auxiliary output paths `command-i/stdout.txt`. -/
def fdCmdPath (i : Nat) : String := "command-" ++ natToStr i ++ "/stdout.txt"

/-- The first existing, non-empty `command-i/stdout.txt` for `i < 5` (the
loop breaks only on non-empty content). -/
def fdFirstCmdOutput (fs : FS) : Option String :=
  (natUpTo 5).findSome? (fun i =>
    match fs (fdCmdPath i) with
    | some c => if c = "" then none else some c
    | none => none)

/-- The metadata stored when the main output file is absent but some
command output exists. -/
def fdNoMainMeta (cfg : FdCfg) (c : String) : List (String × MVal) :=
  [("error", MVal.s "No main output file"),
   ("command_output_sample", MVal.s (strTake c 500)),
   ("droid_model", MVal.s cfg.droid_model)]

/-- The missing-main-output branch: metadata is set only when a non-empty
command output is found; otherwise the record is left untouched. -/
def fdMissingCtx (cfg : FdCfg) (fs : FS) : Ctx :=
  match fdFirstCmdOutput fs with
  | some c => { metadata := some (fdNoMainMeta cfg c) }
  | none => {}

/-- The path of the main droid transcript. -/
def fdLogPath : String := "command-2/droid_output.log"

/-- `FactoryDroidAgent.populate_context_post_run` as a record
transformer. -/
def fdPopulate (cfg : FdCfg) (fs : FS) : Ctx :=
  match fs fdLogPath with
  | some content => fdPopulateContent cfg content
  | none => fdMissingCtx cfg fs

/-- `FactoryDroidAgent.populate_context_post_run` with the
uncaught-exception channel kept visible. -/
def fdPopulateE (cfg : FdCfg) (fs : FS) : Except PyErr Ctx :=
  match fs fdLogPath with
  | some content => pyTry (fdBody cfg content) (fun e => { metadata := some (fdErrMeta cfg e) })
  | none => Except.ok (fdMissingCtx cfg fs)

/-! ## Constructor configuration resolution

Model of `PiMonoAgent.__init__` (pi_mono_agent.py, lines 25-98) and
`FactoryDroidAgent.__init__` (factory_droid.py, lines 44-81), restricted to
the provider/model resolution (the logging and superclass bookkeeping carry
no state the claims mention). -/

/-- A single-quote string (avoids apostrophe literals in code). -/
def sqS : String := String.mk [sqc]

/-- Python falsiness of an optional string (`None` or empty). -/
def strFalsy : Option String → Bool
  | none => true
  | some s => s == ""

/-- The `provider_map` of `PiMonoAgent.__init__`: it is the identity on
exactly these keys, so it acts as an allow-list. -/
def piProviders : List String :=
  ["anthropic", "openai", "google", "groq", "cerebras", "xai", "openrouter"]

/-- Resolution of the `(provider, model)` pair from the constructor
arguments; an `error` is the raised `ValueError`. -/
def piResolve (model_name provider0 : Option String) : Except String (String × String) :=
  if strFalsy provider0 then
    match model_name with
    | none =>
      Except.error ("PiMonoAgent expects model_name like " ++ sqS ++ "provider/model" ++ sqS ++ ".")
    | some mn =>
      if mn = "" || !(mn.data.contains '/') then
        Except.error ("PiMonoAgent expects model_name like " ++ sqS ++ "provider/model" ++ sqS ++ ".")
      else
        match pySplit1 mn '/' with
        | (p, some m) => Except.ok (p, m)
        | (_, none) => Except.ok (mn, "")
  else
    let p := provider0.getD ""
    let m :=
      match model_name with
      | some mn =>
        if mn ≠ "" && mn.data.contains '/' then (pySplit1 mn '/').2.getD ""
        else mn
      | none => ""
    Except.ok (p, m)

/-- The claude/gpt/gemini shorthand mapping of `PiMonoAgent.__init__`
(lines 62-94). A claude model that is none of haiku, opus or sonnet leaves
`pi_model` unset. -/
def piMapModel (model : String) : Option String :=
  let lm := asciiLower model
  if strContains lm "claude" then
    (if strContains lm "haiku" then some "claude-3-5-haiku-latest"
     else if strContains lm "opus" then some "claude-3-opus-latest"
     else if strContains lm "sonnet" then some "claude-3-5-sonnet-latest"
     else none)
  else if strContains lm "gpt" then
    some (if strContains lm "5.1-codex-mini" then "gpt-5.1-codex-mini"
     else if strContains lm "5.1-codex" then "gpt-5.1-codex"
     else if strContains lm "5.1" then "gpt-5.1"
     else if strContains lm "4o" then "gpt-4o"
     else if strContains lm "4-turbo" || strContains lm "4turbo" then "gpt-4-turbo"
     else if strContains lm "o1" then "o1-preview"
     else if strContains lm "3.5" then "gpt-3.5-turbo"
     else "gpt-4o")
  else if strContains lm "gemini" then some "gemini-2.0-flash-exp"
  else some model

/-- `PiMonoAgent._normalize_model_id`: strip a leading `provider/` segment
exactly when it equals the selected provider case-insensitively. -/
def piNormalizeModelId (provider : String) (model : Option String) : Option String :=
  match model with
  | none => none
  | some m =>
    if m = "" then some m
    else
      match pySplit1 m '/' with
      | (_, none) => some m
      | (pre, some rest) =>
        if asciiLower pre = asciiLower provider then some rest else some m

/-- `PiMonoAgent.__init__`: resolve the provider, validate it against the
allow-list, resolve the model shorthand and normalize the model id. An
`error` is the raised `ValueError`. -/
def piInit (model_name provider0 pi_model0 : Option String) (output_mode : String)
    (no_session : Bool) : Except String PiCfg :=
  match piResolve model_name provider0 with
  | Except.error e => Except.error e
  | Except.ok (provider, model) =>
    if !piProviders.contains provider then
      Except.error ("Unknown provider " ++ sqS ++ provider ++ sqS ++ " for pi-mono agent.")
    else
      let pm0 : Option String :=
        if strFalsy pi_model0 then piMapModel model else pi_model0
      Except.ok
        { provider := provider,
          pi_model := piNormalizeModelId provider pm0,
          output_mode := output_mode,
          no_session := no_session }

/-- The `_model_id_map` of `FactoryDroidAgent.__init__`. -/
def fdModelIdMap : List (String × String) :=
  [("sonnet", "claude-sonnet-4-20250514"),
   ("opus", "claude-opus-4-1-20250805"),
   ("haiku", "claude-sonnet-4-20250514"),
   ("gpt-5", "gpt-5-codex"),
   ("gpt-5-codex", "gpt-5-codex"),
   ("gpt-5-high", "gpt-5-codex-high")]

/-- `FactoryDroidAgent.__init__`: resolve the short model preference from
`droid_model`/`model_name` and map it to a Factory model id. This
constructor performs no provider validation and never raises, which the
`Except` wrapper makes visible. -/
def fdInitE (model_name droid_model0 : Option String) (reasoning_effort : String) :
    Except String FdCfg :=
  let short0 := droid_model0.getD "sonnet"
  let short :=
    match model_name with
    | some mn =>
      if mn ≠ "" && mn.data.contains '/' then
        match pySplit1 mn '/' with
        | (prov, rest) =>
          let m := rest.getD ""
          let lm := asciiLower m
          if prov = "anthropic" then
            (if strContains lm "haiku" then "haiku"
             else if strContains lm "opus" then "opus"
             else if strContains lm "sonnet" then "sonnet"
             else short0)
          else if prov = "openai" then
            (if strContains lm "gpt-5" then "gpt-5" else short0)
          else short0
      else short0
    | none => short0
  Except.ok
    { droid_model := ((fdModelIdMap.find? (fun p => p.1 == short)).map (fun p => p.2)).getD short,
      reasoning_effort := reasoning_effort,
      last_instruction := none }

/-! ## Command construction and shell quoting

Model of `shlex.quote` (the CPython implementation: unchanged for safe
strings, otherwise single-quoted with embedded single quotes re-quoted in
double quotes) and of the main command line each agent builds around the
quoted instruction. -/

/-- The characters `shlex.quote` treats as safe (the complement of the
CPython regex: ASCII word characters plus at-sign, percent, plus, equals,
colon, comma, dot, slash and hyphen). -/
def safeChars : List Char :=
  ("abcdefghijklmnopqrstuvwxyzABCDEFGHIJKLMNOPQRSTUVWXYZ0123456789_@%+=:,./-").data

/-- Safety of one character. -/
def shlexSafe (c : Char) : Bool := safeChars.contains c

/-- The replacement `quote -> quote double-quote quote double-quote quote`
applied to every character of the instruction. -/
def shEncode : List Char → List Char
  | [] => []
  | c :: cs => (if c = sqc then [sqc, '"', sqc, '"', sqc] else [c]) ++ shEncode cs

/-- `shlex.quote`. -/
def shlexQuote (s : String) : String :=
  if s = "" then String.mk [sqc, sqc]
  else if s.data.all shlexSafe then s
  else String.mk (sqc :: (shEncode s.data ++ [sqc]))

/-- The `pi_command_parts` list of `PiMonoAgent.create_run_agent_commands`
(lines 219-237): flags from the configuration, then the quoted
instruction. -/
def piCommandParts (cfg : PiCfg) (instr : String) : List String :=
  ((((["pi"]
    ++ (if cfg.provider ≠ "" then ["--provider", cfg.provider] else []))
    ++ (match cfg.pi_model with
        | some m => if m ≠ "" then ["--model", m] else []
        | none => []))
    ++ ["--mode", cfg.output_mode])
    ++ (if cfg.no_session then ["--no-session"] else []))
    ++ [shlexQuote instr]

/-- The same list without its final element, for stating where the
instruction sits. -/
def piCommandPartsPre (cfg : PiCfg) : List String :=
  (((["pi"]
    ++ (if cfg.provider ≠ "" then ["--provider", cfg.provider] else []))
    ++ (match cfg.pi_model with
        | some m => if m ≠ "" then ["--model", m] else []
        | none => []))
    ++ ["--mode", cfg.output_mode])
    ++ (if cfg.no_session then ["--no-session"] else [])

/-- The `main_command` string of the pi-mono agent (lines 240-245). -/
def piMainCommand (cfg : PiCfg) (timeout_seconds : Nat) (instr : String) : String :=
  "cd /workspace && timeout " ++ natToStr timeout_seconds ++ " " ++
    strJoin " " (piCommandParts cfg instr) ++ " 2>&1 | tee /logs/agent/pi_output.log"

/-- The `droid_cmd_parts` list of
`FactoryDroidAgent.create_run_agent_commands` (lines 262-283). -/
def fdCommandParts (cfg : FdCfg) (instr : String) : List String :=
  ((["droid", "exec", "-m", cfg.droid_model]
    ++ (if cfg.reasoning_effort ≠ "" && cfg.reasoning_effort ≠ "off" then
          ["-r", cfg.reasoning_effort] else []))
    ++ ["--auto",
        if cfg.reasoning_effort ≠ "" && cfg.reasoning_effort ≠ "off" then
          cfg.reasoning_effort else "high"])
    ++ [shlexQuote instr]

/-- The same list without its final element. -/
def fdCommandPartsPre (cfg : FdCfg) : List String :=
  (["droid", "exec", "-m", cfg.droid_model]
    ++ (if cfg.reasoning_effort ≠ "" && cfg.reasoning_effort ≠ "off" then
          ["-r", cfg.reasoning_effort] else []))
    ++ ["--auto",
        if cfg.reasoning_effort ≠ "" && cfg.reasoning_effort ≠ "off" then
          cfg.reasoning_effort else "high"]

/-- The `main_command` string of the factory-droid agent (lines 286-292). -/
def fdMainCommand (cfg : FdCfg) (timeout_seconds : Nat) (instr : String) : String :=
  "timeout " ++ natToStr timeout_seconds ++ " " ++
    strJoin " " (fdCommandParts cfg instr) ++
    " 2>&1 | tee /logs/agent/droid_output.log || echo " ++ sqS ++
    "Factory Droid failed - likely due to authentication requirements" ++ sqS

/-- Decidable equality of `Except` results (used to check concrete runs). -/
instance {ε α : Type} [DecidableEq ε] [DecidableEq α] : DecidableEq (Except ε α) := fun a b =>
  match a, b with
  | Except.ok x, Except.ok y =>
    if h : x = y then Decidable.isTrue (by rw [h])
    else Decidable.isFalse (fun hh => h (Except.ok.inj hh))
  | Except.ok _, Except.error _ => Decidable.isFalse (fun hh => Except.noConfusion hh)
  | Except.error _, Except.ok _ => Decidable.isFalse (fun hh => Except.noConfusion hh)
  | Except.error x, Except.error y =>
    if h : x = y then Decidable.isTrue (by rw [h])
    else Decidable.isFalse (fun hh => h (Except.error.inj hh))

/-! ## A POSIX shell reader

To state that a quoted instruction reaches the tool as one unmodified
argument, `shWords` models how a POSIX shell splits a command string into
words: blanks separate words outside quotes, single quotes protect
everything up to the next single quote, double quotes protect everything
except expansion characters, a backslash escapes the next character.
Encountering an operator or expansion character outside protection returns
`none`: such a character would be interpreted by the shell rather than
passed through. -/

/-- Characters a shell would interpret when unprotected (operators,
expansions, globbing, comments; the backtick and the newline included). -/
def shSpecialChars : List Char := ("|&;<>()$*?[#~!").data ++ [btc, '\x0a']

/-- Membership in the special set. -/
def shSpecial (c : Char) : Bool := shSpecialChars.contains c

/-- The quoting state of the reader. -/
inductive ShMode where
  | norm : ShMode
  | inSingle : ShMode
  | inDouble : ShMode
deriving DecidableEq

/-- Close the current word, if one was started. -/
def shFlush (cur : Option (List Char)) : List String :=
  match cur with
  | none => []
  | some w => [String.mk w]

/-- The reader: fuel, mode, remaining input, current word (if started),
words so far. -/
def shAux : Nat → ShMode → List Char → Option (List Char) → List String → Option (List String)
  | 0, _, _, _, _ => none
  | _ + 1, ShMode.norm, [], cur, acc => some (acc ++ shFlush cur)
  | fuel + 1, ShMode.norm, c :: cs, cur, acc =>
    if c = ' ' ∨ c = '\x09' then shAux fuel ShMode.norm cs none (acc ++ shFlush cur)
    else if c = sqc then shAux fuel ShMode.inSingle cs (some (cur.getD [])) acc
    else if c = '"' then shAux fuel ShMode.inDouble cs (some (cur.getD [])) acc
    else if c = '\\' then
      match cs with
      | [] => none
      | d :: ds => shAux fuel ShMode.norm ds (some (cur.getD [] ++ [d])) acc
    else if shSpecial c then none
    else shAux fuel ShMode.norm cs (some (cur.getD [] ++ [c])) acc
  | _ + 1, ShMode.inSingle, [], _, _ => none
  | fuel + 1, ShMode.inSingle, c :: cs, cur, acc =>
    if c = sqc then shAux fuel ShMode.norm cs cur acc
    else shAux fuel ShMode.inSingle cs (some (cur.getD [] ++ [c])) acc
  | _ + 1, ShMode.inDouble, [], _, _ => none
  | fuel + 1, ShMode.inDouble, c :: cs, cur, acc =>
    if c = '"' then shAux fuel ShMode.norm cs cur acc
    else if c = '$' ∨ c = btc then none
    else if c = '\\' then
      match cs with
      | [] => none
      | d :: ds =>
        if d = '$' ∨ d = btc ∨ d = '"' ∨ d = '\\' then
          shAux fuel ShMode.inDouble ds (some (cur.getD [] ++ [d])) acc
        else shAux fuel ShMode.inDouble ds (some (cur.getD [] ++ ['\\', d])) acc
    else shAux fuel ShMode.inDouble cs (some (cur.getD [] ++ [c])) acc

/-- Word splitting of a whole command string. -/
def shWords (s : String) : Option (List String) :=
  shAux (s.data.length + 1) ShMode.norm s.data none []

/-- One combined check that a `shlex.quote`-safe character is inert for the
reader. -/
def shSafeDisjointB (c : Char) : Bool :=
  !(c == ' ' || c == '\x09' || c == sqc || c == '"' || c == '\\' || shSpecial c)

theorem all_safe_disjoint : safeChars.all shSafeDisjointB = true := by decide

theorem safe_char_facts (c : Char) (h : shlexSafe c = true) :
    ¬(c = ' ' ∨ c = '\x09') ∧ c ≠ sqc ∧ c ≠ '"' ∧ c ≠ '\\' ∧ shSpecial c = false := by
  have hm : c ∈ safeChars := by
    unfold shlexSafe at h
    exact List.mem_of_elem_eq_true h
  have hb := List.all_eq_true.mp all_safe_disjoint c hm
  unfold shSafeDisjointB at hb
  simp only [Bool.not_eq_true', Bool.or_eq_false_iff, beq_eq_false_iff_ne, ne_eq] at hb
  obtain ⟨⟨⟨⟨⟨h1, h2⟩, h3⟩, h4⟩, h5⟩, h6⟩ := hb
  exact ⟨by tauto, h3, h4, h5, h6⟩

theorem strMkData (s : String) : String.mk s.data = s := by
  obtain ⟨d⟩ := s
  rfl

theorem shAux_safe (cs : List Char) : ∀ (fuel : Nat) (w : List Char) (acc : List String),
    cs.length + 1 ≤ fuel → cs.all shlexSafe = true →
    shAux fuel ShMode.norm cs (some w) acc = some (acc ++ [String.mk (w ++ cs)]) := by
  induction cs with
  | nil =>
    intro fuel w acc hf _
    match fuel, hf with
    | f + 1, _ => simp [shAux, shFlush]
  | cons c cs ih =>
    intro fuel w acc hf hall
    match fuel, hf with
    | f + 1, hf =>
      rw [List.all_cons, Bool.and_eq_true] at hall
      obtain ⟨h1, h2, h3, h4, h5⟩ := safe_char_facts c hall.1
      show (if c = ' ' ∨ c = '\x09' then _ else if c = sqc then _ else if c = '"' then _
            else if c = '\\' then _ else if shSpecial c then _ else
              shAux f ShMode.norm cs (some ((some w).getD [] ++ [c])) acc) = _
      rw [if_neg h1, if_neg h2, if_neg h3, if_neg h4, if_neg (by simp [h5])]
      have := ih f (w ++ [c]) acc (by simpa using Nat.le_of_succ_le_succ hf) hall.2
      simpa [List.append_assoc] using this

theorem shAux_encode (cs : List Char) : ∀ (fuel : Nat) (w : List Char) (acc : List String),
    (shEncode cs).length + 2 ≤ fuel →
    shAux fuel ShMode.inSingle (shEncode cs ++ [sqc]) (some w) acc =
      some (acc ++ [String.mk (w ++ cs)]) := by
  induction cs with
  | nil =>
    intro fuel w acc hf
    match fuel, hf with
    | f + 2, _ => simp [shAux, shEncode, shFlush]
  | cons c cs ih =>
    intro fuel w acc hf
    by_cases hc : c = sqc
    · subst hc
      have hlen : (shEncode (sqc :: cs)).length = 5 + (shEncode cs).length := by
        simp [shEncode]
        omega
      match fuel, (by omega : 5 + ((shEncode cs).length + 2) ≤ fuel) with
      | f + 5, hf2 =>
        have hstep : shAux (f + 5) ShMode.inSingle (shEncode (sqc :: cs) ++ [sqc]) (some w) acc =
            shAux f ShMode.inSingle (shEncode cs ++ [sqc]) (some (w ++ [sqc])) acc := by
          show shAux (f + 5) ShMode.inSingle
              (sqc :: '"' :: sqc :: '"' :: sqc :: (shEncode cs ++ [sqc])) (some w) acc = _
          rfl
        rw [hstep, ih f (w ++ [sqc]) acc (by omega)]
        simp
    · have hlen : shEncode (c :: cs) = c :: shEncode cs := by
        simp [shEncode, hc]
      rw [hlen]
      rw [hlen] at hf
      match fuel, hf with
      | f + 1, hf =>
        show (if c = sqc then _
              else shAux f ShMode.inSingle (shEncode cs ++ [sqc]) (some ((some w).getD [] ++ [c])) acc) = _
        rw [if_neg hc]
        have := ih f (w ++ [c]) acc (by simp at hf; omega)
        simpa [List.append_assoc] using this

/-- Round trip of `shlex.quote` through the shell reader: for every
instruction string, the quoted form is read back as exactly one word equal
to the original instruction, with no character interpreted by the shell. -/
theorem shlexQuote_single_word (s : String) : shWords (shlexQuote s) = some [s] := by
  by_cases h0 : s = ""
  · subst h0
    decide
  · by_cases h1 : s.data.all shlexSafe
    · have hq : shlexQuote s = s := by
        unfold shlexQuote
        rw [if_neg h0, if_pos h1]
      rw [hq]
      unfold shWords
      obtain ⟨d⟩ := s
      match d, h1 with
      | c :: cs, h1 =>
        rw [List.all_cons, Bool.and_eq_true] at h1
        obtain ⟨f1, f2, f3, f4, f5⟩ := safe_char_facts c h1.1
        show (if c = ' ' ∨ c = '\x09' then _ else if c = sqc then _ else if c = '"' then _
              else if c = '\\' then _ else if shSpecial c then _ else
                shAux (cs.length + 1) ShMode.norm cs (some ((none : Option (List Char)).getD [] ++ [c])) []) = _
        rw [if_neg f1, if_neg f2, if_neg f3, if_neg f4, if_neg (by simp [f5])]
        have := shAux_safe cs (cs.length + 1) [c] [] (by omega) h1.2
        simpa using this
    · have hq : shlexQuote s = String.mk (sqc :: (shEncode s.data ++ [sqc])) := by
        unfold shlexQuote
        rw [if_neg h0, if_neg h1]
      rw [hq]
      unfold shWords
      show shAux ((sqc :: (shEncode s.data ++ [sqc])).length + 1) ShMode.norm
          (sqc :: (shEncode s.data ++ [sqc])) none [] = some [s]
      have hstep : shAux ((sqc :: (shEncode s.data ++ [sqc])).length + 1) ShMode.norm
          (sqc :: (shEncode s.data ++ [sqc])) none [] =
          shAux ((shEncode s.data ++ [sqc]).length + 1) ShMode.inSingle
            (shEncode s.data ++ [sqc]) (some []) [] := by
        rfl
      rw [hstep, shAux_encode s.data _ [] [] (by simp)]
      simp [strMkData]

/-! ## Properties of the streaming scan

The scan threads its totals through each line. The shift lemmas relate a
step from arbitrary totals to the same step from zero totals: the raised
exceptions agree, and the values accumulate additively. They drive the
non-negativity and cache accounting results. -/

theorem usageGetAdd_shift (u : Json) (k : String) (a : Q) :
    (∀ e, usageGetAdd u k Q.zero = Except.error e → usageGetAdd u k a = Except.error e) ∧
    (∀ d, usageGetAdd u k Q.zero = Except.ok d → ∃ r, usageGetAdd u k a = Except.ok r ∧
      r.val = a.val + d.val) := by
  unfold usageGetAdd
  cases hv : jgetD u k (Json.num Q.zero) with
  | error e => simp
  | ok v =>
    try dsimp only
    cases hq : pyNumVal v with
    | error e => simp
    | ok q =>
      try dsimp only
      refine ⟨by simp, ?_⟩
      intro d hd
      simp only [Except.ok.injEq] at hd
      refine ⟨a.add q, rfl, ?_⟩
      rw [← hd, Q.val_add, Q.val_add, Q.val_zero]
      ring

theorem piCostAdd_shift (u : Json) (a : Q) :
    (∀ e, piCostAdd u Q.zero = Except.error e → piCostAdd u a = Except.error e) ∧
    (∀ d, piCostAdd u Q.zero = Except.ok d → ∃ r, piCostAdd u a = Except.ok r ∧
      r.val = a.val + d.val) := by
  unfold piCostAdd
  cases hk : jHasKey u "cost" with
  | error e => simp
  | ok b =>
    try dsimp only
    cases b with
    | false =>
      try dsimp only
      refine ⟨by simp, ?_⟩
      intro d hd
      simp only [Except.ok.injEq] at hd
      exact ⟨a, rfl, by rw [← hd, Q.val_zero]; ring⟩
    | true =>
      try dsimp only
      cases hi : jIndex u "cost" with
      | error e => simp
      | ok v =>
        try dsimp only
        have main : ∀ (q : Q) (d : Q), Q.zero.add q = d → (a.add q).val = a.val + d.val := by
          intro q d hd
          rw [← hd, Q.val_add, Q.val_add, Q.val_zero]
          ring
        cases v with
        | obj fs =>
          try dsimp only
          cases hq : pyNumVal ((jLookup fs "total").getD (Json.num Q.zero)) with
          | error e => simp
          | ok q =>
            try dsimp only
            refine ⟨by simp, ?_⟩
            intro d hd
            simp only [Except.ok.injEq] at hd
            exact ⟨a.add q, rfl, main q d hd⟩
        | null =>
          try dsimp only
          cases hq : pyNumVal Json.null with
          | error e => simp
          | ok q =>
            try dsimp only
            refine ⟨by simp, ?_⟩
            intro d hd
            simp only [Except.ok.injEq] at hd
            exact ⟨a.add q, rfl, main q d hd⟩
        | bool b2 =>
          try dsimp only
          cases hq : pyNumVal (Json.bool b2) with
          | error e => simp
          | ok q =>
            try dsimp only
            refine ⟨by simp, ?_⟩
            intro d hd
            simp only [Except.ok.injEq] at hd
            exact ⟨a.add q, rfl, main q d hd⟩
        | num q2 =>
          try dsimp only
          cases hq : pyNumVal (Json.num q2) with
          | error e => simp
          | ok q =>
            try dsimp only
            refine ⟨by simp, ?_⟩
            intro d hd
            simp only [Except.ok.injEq] at hd
            exact ⟨a.add q, rfl, main q d hd⟩
        | str s2 =>
          try dsimp only
          cases hq : pyNumVal (Json.str s2) with
          | error e => simp
          | ok q =>
            try dsimp only
            refine ⟨by simp, ?_⟩
            intro d hd
            simp only [Except.ok.injEq] at hd
            exact ⟨a.add q, rfl, main q d hd⟩
        | arr xs =>
          try dsimp only
          cases hq : pyNumVal (Json.arr xs) with
          | error e => simp
          | ok q =>
            try dsimp only
            refine ⟨by simp, ?_⟩
            intro d hd
            simp only [Except.ok.injEq] at hd
            exact ⟨a.add q, rfl, main q d hd⟩

/-- The conclusion shape of the shift lemmas at the totals level. -/
def totShift (t d t2 : PiTotals) : Prop :=
  t2.inp.val = t.inp.val + d.inp.val ∧ t2.out.val = t.out.val + d.out.val ∧
  t2.cacheRead.val = t.cacheRead.val + d.cacheRead.val ∧
  t2.cacheWrite.val = t.cacheWrite.val + d.cacheWrite.val ∧
  t2.cost.val = t.cost.val + d.cost.val

theorem totShift_zero (t : PiTotals) : totShift t piZero t := by
  unfold totShift piZero
  simp [Q.val_zero]

theorem piProcessEvent_shift (t : PiTotals) (ev : Json) :
    (∀ e, piProcessEvent piZero ev = Except.error e → piProcessEvent t ev = Except.error e) ∧
    (∀ d, piProcessEvent piZero ev = Except.ok d → ∃ t2, piProcessEvent t ev = Except.ok t2 ∧
      totShift t d t2) := by
  unfold piProcessEvent
  cases h1 : jget ev "type" with
  | error e => simp
  | ok ty =>
    try dsimp only
    by_cases hty : jEqStr ty "message_end" = true
    case neg =>
      simp only [Bool.not_eq_true] at hty
      simp only [hty, Bool.false_eq_true, if_false]
      refine ⟨by simp, ?_⟩
      intro d hd
      simp only [Except.ok.injEq] at hd
      exact ⟨t, rfl, hd ▸ totShift_zero t⟩
    case pos =>
      simp only [hty, if_true]
      cases h2 : jHasKey ev "message" with
      | error e => simp
      | ok hm =>
        try dsimp only
        cases hm with
        | false =>
          try dsimp only
          refine ⟨by simp, ?_⟩
          intro d hd
          simp only [Except.ok.injEq] at hd
          exact ⟨t, rfl, hd ▸ totShift_zero t⟩
        | true =>
          try dsimp only
          cases h3 : jIndex ev "message" with
          | error e => simp
          | ok msg =>
            try dsimp only
            cases h4 : jget msg "role" with
            | error e => simp
            | ok role =>
              try dsimp only
              by_cases hrole : jEqStr role "assistant" = true
              case neg =>
                simp only [Bool.not_eq_true] at hrole
                simp only [hrole, Bool.false_eq_true, if_false]
                refine ⟨by simp, ?_⟩
                intro d hd
                simp only [Except.ok.injEq] at hd
                exact ⟨t, rfl, hd ▸ totShift_zero t⟩
              case pos =>
                simp only [hrole, if_true]
                cases h5 : jHasKey msg "usage" with
                | error e => simp
                | ok hu =>
                  try dsimp only
                  cases hu with
                  | false =>
                    try dsimp only
                    refine ⟨by simp, ?_⟩
                    intro d hd
                    simp only [Except.ok.injEq] at hd
                    exact ⟨t, rfl, hd ▸ totShift_zero t⟩
                  | true =>
                    try dsimp only
                    cases h6 : jIndex msg "usage" with
                    | error e => simp
                    | ok usage =>
                      dsimp only [piZero]
                      cases hz1 : usageGetAdd usage "input" Q.zero with
                      | error e =>
                        rw [(usageGetAdd_shift usage "input" t.inp).1 e hz1]
                        simp
                      | ok d1 =>
                        obtain ⟨r1, hr1, hv1⟩ := (usageGetAdd_shift usage "input" t.inp).2 d1 hz1
                        rw [hr1]
                        try dsimp only
                        cases hz2 : usageGetAdd usage "output" Q.zero with
                        | error e =>
                          rw [(usageGetAdd_shift usage "output" t.out).1 e hz2]
                          simp
                        | ok d2 =>
                          obtain ⟨r2, hr2, hv2⟩ := (usageGetAdd_shift usage "output" t.out).2 d2 hz2
                          rw [hr2]
                          try dsimp only
                          cases hz3 : usageGetAdd usage "cacheRead" Q.zero with
                          | error e =>
                            rw [(usageGetAdd_shift usage "cacheRead" t.cacheRead).1 e hz3]
                            simp
                          | ok d3 =>
                            obtain ⟨r3, hr3, hv3⟩ :=
                              (usageGetAdd_shift usage "cacheRead" t.cacheRead).2 d3 hz3
                            rw [hr3]
                            try dsimp only
                            cases hz4 : usageGetAdd usage "cacheWrite" Q.zero with
                            | error e =>
                              rw [(usageGetAdd_shift usage "cacheWrite" t.cacheWrite).1 e hz4]
                              simp
                            | ok d4 =>
                              obtain ⟨r4, hr4, hv4⟩ :=
                                (usageGetAdd_shift usage "cacheWrite" t.cacheWrite).2 d4 hz4
                              rw [hr4]
                              try dsimp only
                              cases hz5 : piCostAdd usage Q.zero with
                              | error e =>
                                rw [(piCostAdd_shift usage t.cost).1 e hz5]
                                simp
                              | ok d5 =>
                                obtain ⟨r5, hr5, hv5⟩ := (piCostAdd_shift usage t.cost).2 d5 hz5
                                rw [hr5]
                                try dsimp only
                                refine ⟨by simp, ?_⟩
                                intro d hd
                                simp only [Except.ok.injEq] at hd
                                refine ⟨⟨r1, r2, r3, r4, r5⟩, rfl, ?_⟩
                                rw [← hd]
                                exact ⟨hv1, hv2, hv3, hv4, hv5⟩

theorem piLineStep_shift (t : PiTotals) (line : String) :
    (∀ e, piLineStep piZero line = Except.error e → piLineStep t line = Except.error e) ∧
    (∀ d, piLineStep piZero line = Except.ok d → ∃ t2, piLineStep t line = Except.ok t2 ∧
      totShift t d t2) := by
  unfold piLineStep
  by_cases hskip : (pyStrip line = "" || !pyStartsWithBrace (pyStrip line)) = true
  · simp only [hskip, if_true]
    refine ⟨by simp, ?_⟩
    intro d hd
    simp only [Except.ok.injEq] at hd
    exact ⟨t, rfl, hd ▸ totShift_zero t⟩
  · simp only [Bool.not_eq_true] at hskip
    simp only [hskip, Bool.false_eq_true, if_false]
    cases hj : jsonLoads (pyStrip line) with
    | none =>
      try dsimp only
      refine ⟨by simp, ?_⟩
      intro d hd
      simp only [Except.ok.injEq] at hd
      exact ⟨t, rfl, hd ▸ totShift_zero t⟩
    | some ev =>
      try dsimp only
      exact piProcessEvent_shift t ev

/-- Non-negativity of the values a line contributes when scanned from zero
totals. -/
def lineDeltaNonNeg (line : String) : Prop :=
  ∀ d, piLineStep piZero line = Except.ok d →
    0 ≤ d.inp.val ∧ 0 ≤ d.out.val ∧ 0 ≤ d.cacheRead.val ∧ 0 ≤ d.cacheWrite.val ∧ 0 ≤ d.cost.val

/-- Non-negativity of all five totals. -/
def totValNonNeg (t : PiTotals) : Prop :=
  0 ≤ t.inp.val ∧ 0 ≤ t.out.val ∧ 0 ≤ t.cacheRead.val ∧ 0 ≤ t.cacheWrite.val ∧ 0 ≤ t.cost.val

theorem piZero_nonneg : totValNonNeg piZero := by
  unfold totValNonNeg piZero
  simp [Q.val_zero]

theorem piScanAux_nonneg : ∀ (lines : List String) (t tot : PiTotals),
    piScanAux t lines = Except.ok tot → totValNonNeg t →
    (∀ l ∈ lines, lineDeltaNonNeg l) → totValNonNeg tot := by
  intro lines
  induction lines with
  | nil =>
    intro t tot h ht _
    simp only [piScanAux, Except.ok.injEq] at h
    rwa [← h]
  | cons l ls ih =>
    intro t tot h ht hall
    simp only [piScanAux] at h
    cases hs : piLineStep t l with
    | error e => rw [hs] at h; cases h
    | ok t2 =>
      rw [hs] at h
      dsimp only at h
      cases hz : piLineStep piZero l with
      | error e =>
        rw [(piLineStep_shift t l).1 e hz] at hs
        cases hs
      | ok d =>
        obtain ⟨t2', h2', hsft⟩ := (piLineStep_shift t l).2 d hz
        rw [hs] at h2'
        obtain rfl : t2 = t2' := Except.ok.inj h2'
        obtain ⟨hd1, hd2, hd3, hd4, hd5⟩ := hall l (by simp) d hz
        obtain ⟨ht1, ht2, ht3, ht4, ht5⟩ := ht
        obtain ⟨hs1, hs2, hs3, hs4, hs5⟩ := hsft
        refine ih t2 tot h ⟨?_, ?_, ?_, ?_, ?_⟩ (fun x hx => hall x (by simp [hx]))
        · rw [hs1]; linarith
        · rw [hs2]; linarith
        · rw [hs3]; linarith
        · rw [hs4]; linarith
        · rw [hs5]; linarith

theorem piScanAux_cacheRead : ∀ (lines : List String) (t tot : PiTotals),
    piScanAux t lines = Except.ok tot →
    tot.cacheRead.val = t.cacheRead.val +
      ((lines.map (fun l => (piLineCacheRead l).val)).sum) := by
  intro lines
  induction lines with
  | nil =>
    intro t tot h
    simp only [piScanAux, Except.ok.injEq] at h
    rw [← h]
    simp
  | cons l ls ih =>
    intro t tot h
    simp only [piScanAux] at h
    cases hs : piLineStep t l with
    | error e => rw [hs] at h; cases h
    | ok t2 =>
      rw [hs] at h
      dsimp only at h
      cases hz : piLineStep piZero l with
      | error e =>
        rw [(piLineStep_shift t l).1 e hz] at hs
        cases hs
      | ok d =>
        obtain ⟨t2', h2', hsft⟩ := (piLineStep_shift t l).2 d hz
        rw [hs] at h2'
        obtain rfl : t2 = t2' := Except.ok.inj h2'
        have hline : piLineCacheRead l = d.cacheRead := by
          unfold piLineCacheRead
          rw [hz]
        rw [ih t2 tot h, hsft.2.2.1, List.map_cons, List.sum_cons, hline]
        ring

/-! ## Properties of the record construction stage -/

theorem piPopulateContent_ok (cfg : PiCfg) (content : String) (tot : PiTotals)
    (h : piScan (pyLines content) = Except.ok tot) :
    piPopulateContent cfg content = piBuild cfg content tot := by
  unfold piPopulateContent piBody
  rw [h]

theorem piPopulateContent_err (cfg : PiCfg) (content : String) (e : PyErr)
    (h : piScan (pyLines content) = Except.error e) :
    piPopulateContent cfg content = { metadata := some (piErrMeta cfg e) } := by
  unfold piPopulateContent piBody
  rw [h]

theorem piBuild_cache (cfg : PiCfg) (content : String) (tot : PiTotals) :
    (piBuild cfg content tot).n_cache_tokens = some tot.cacheRead := by
  unfold piBuild
  dsimp only
  split <;> rfl

theorem piBuild_cacheWrite_irrel (cfg : PiCfg) (content : String) (tot : PiTotals) (w : Q) :
    piBuild cfg content { tot with cacheWrite := w } = piBuild cfg content tot := rfl

theorem piBuild_success (cfg : PiCfg) (content : String) (tot : PiTotals) :
    metaGet (piBuild cfg content tot) "success" =
      some (MVal.b (!piHasErrors content && tot.out.isPos)) := by
  unfold piBuild metaGet
  dsimp only
  rfl

theorem piBuild_fallback (cfg : PiCfg) (content : String) (tot : PiTotals)
    (hc : (tot.inp.isZero && tot.out.isZero) = true) :
    (piBuild cfg content tot).n_input_tokens = some (Q.ofNat 500) ∧
    (piBuild cfg content tot).n_output_tokens =
      some (Q.ofNat (max (piFallbackChars (pyLines content) / 4) 100)) ∧
    (piBuild cfg content tot).cost_usd =
      some ((((Q.ofNat 500).divNat 1000).mul ((piRate cfg.provider).divNat 5)).add
        (((Q.ofNat (max (piFallbackChars (pyLines content) / 4) 100)).divNat 1000).mul
          (piRate cfg.provider))) := by
  unfold piBuild
  dsimp only
  rw [if_pos hc]
  exact ⟨rfl, rfl, rfl⟩

theorem piBuild_direct (cfg : PiCfg) (content : String) (tot : PiTotals)
    (hc : (tot.inp.isZero && tot.out.isZero) = false) :
    (piBuild cfg content tot).n_input_tokens = some tot.inp ∧
    (piBuild cfg content tot).n_output_tokens = some tot.out ∧
    (piBuild cfg content tot).cost_usd = some tot.cost := by
  unfold piBuild
  dsimp only
  rw [if_neg (by simp [hc])]
  exact ⟨rfl, rfl, rfl⟩

theorem piRate_nonneg (p : String) : 0 ≤ (piRate p).val := by
  unfold piRate
  cases hf : List.find? (fun p2 => p2.1 == p) piRates with
  | none =>
    simp only [hf, Option.map_none', Option.getD_none]
    exact Q.val_nonneg_of_num (by decide)
  | some pair =>
    have hmem : pair ∈ piRates := List.mem_of_find?_eq_some hf
    have hall : ∀ x ∈ piRates, 0 ≤ x.2.num := by decide
    simp only [hf, Option.map_some', Option.getD_some]
    exact Q.val_nonneg_of_num (hall pair hmem)

theorem fdRate_nonneg (m : String) : 0 ≤ (fdRate m).val := by
  unfold fdRate
  cases hf : List.find? (fun p2 => p2.1 == m) fdCostTable with
  | none =>
    simp only [hf, Option.map_none', Option.getD_none]
    exact Q.val_nonneg_of_num (by decide)
  | some pair =>
    have hmem : pair ∈ fdCostTable := List.mem_of_find?_eq_some hf
    have hall : ∀ x ∈ fdCostTable, 0 ≤ x.2.num := by decide
    simp only [hf, Option.map_some', Option.getD_some]
    exact Q.val_nonneg_of_num (hall pair hmem)

/-! ## Helper lemmas on strings and splitting -/

theorem strDataAppend (a b : String) : (a ++ b).data = a.data ++ b.data := by
  obtain ⟨x⟩ := a
  obtain ⟨y⟩ := b
  rfl

theorem strAppend_assoc (a b c : String) : (a ++ b) ++ c = a ++ (b ++ c) := by
  obtain ⟨x⟩ := a
  obtain ⟨y⟩ := b
  obtain ⟨z⟩ := c
  show String.mk ((x ++ y) ++ z) = String.mk (x ++ (y ++ z))
  rw [List.append_assoc]

theorem contains_false_forall {l : List Char} {a : Char} (h : l.contains a = false) :
    ∀ c ∈ l, (c == a) = false := by
  intro c hc
  by_contra hne
  rw [Bool.not_eq_false, beq_iff_eq] at hne
  subst hne
  rw [show l.contains c = true from List.elem_iff.mpr hc] at h
  cases h

theorem takeWhile_middle (p : Char → Bool) (a : Char) (ha : p a = false) :
    ∀ (l1 l2 : List Char), (∀ c ∈ l1, p c = true) →
      (l1 ++ a :: l2).takeWhile p = l1 ∧ (l1 ++ a :: l2).dropWhile p = a :: l2 := by
  intro l1
  induction l1 with
  | nil =>
    intro l2 _
    simp [List.takeWhile, List.dropWhile, ha]
  | cons c cs ih =>
    intro l2 hall
    have hc : p c = true := hall c (by simp)
    have hrest := ih l2 (fun x hx => hall x (by simp [hx]))
    simp only [List.cons_append, List.takeWhile_cons, List.dropWhile_cons, hc, if_true]
    exact ⟨by rw [hrest.1], by rw [hrest.2]⟩

theorem dropWhile_all (p : Char → Bool) :
    ∀ (l : List Char), (∀ c ∈ l, p c = true) → l.dropWhile p = [] := by
  intro l
  induction l with
  | nil => intro _; rfl
  | cons c cs ih =>
    intro hall
    simp only [List.dropWhile_cons, hall c (by simp), if_true]
    exact ih (fun x hx => hall x (by simp [hx]))

theorem pySplit1_split (pre rest : String) (h : pre.data.contains '/' = false) :
    pySplit1 (pre ++ "/" ++ rest) '/' = (pre, some rest) := by
  unfold pySplit1
  have hdata : (pre ++ "/" ++ rest).data = pre.data ++ '/' :: rest.data := by
    rw [strDataAppend, strDataAppend]
    simp
  have hmid := takeWhile_middle (fun c => !(c == '/')) '/' (by simp) pre.data rest.data
    (fun c hc => by simp [contains_false_forall h c hc])
  rw [hdata, hmid.1, hmid.2]
  try simp [strMkData]

theorem pySplit1_none (m : String) (h : m.data.contains '/' = false) :
    pySplit1 m '/' = (m, none) := by
  unfold pySplit1
  rw [dropWhile_all (fun c => !(c == '/')) m.data
    (fun c hc => by simp [contains_false_forall h c hc])]

theorem strJoin_append_singleton : ∀ (xs : List String) (x : String), xs ≠ [] →
    strJoin " " (xs ++ [x]) = strJoin " " xs ++ " " ++ x := by
  intro xs
  induction xs with
  | nil => intro x h; exact absurd rfl h
  | cons a as ih =>
    intro x _
    cases as with
    | nil => rfl
    | cons b bs =>
      show a ++ " " ++ strJoin " " ((b :: bs) ++ [x]) = (a ++ " " ++ strJoin " " (b :: bs)) ++ " " ++ x
      rw [ih x (by simp), ← strAppend_assoc, ← strAppend_assoc]

/-! ## Concrete fixtures

Concrete configurations, transcripts and file systems used to check the
theorems on explicit runs. The transcript strings are JSON-lines as the pi
CLI emits them. -/

/-- A pi-mono configuration resolved for the anthropic provider. -/
def cfgA : PiCfg :=
  { provider := "anthropic", pi_model := some "claude-3-5-sonnet-latest",
    output_mode := "json", no_session := false }

/-- A factory-droid configuration with the default model. -/
def fcfg0 : FdCfg :=
  { droid_model := "claude-sonnet-4-20250514", reasoning_effort := "medium",
    last_instruction := none }

/-- A usage event with input 1, output 2 and bare-number cost 0.02. -/
def txL1 : String := "\x7b\"type\":\"message_end\",\"message\":\x7b\"role\":\"assistant\",\"usage\":\x7b\"input\":1,\"output\":2,\"cost\":0.02\x7d\x7d\x7d"

/-- A usage event whose cost is the object form with total 0.03. -/
def txL2 : String := "\x7b\"type\":\"message_end\",\"message\":\x7b\"role\":\"assistant\",\"usage\":\x7b\"cost\":\x7b\"total\":0.03\x7d\x7d\x7d\x7d"

/-- A transcript with cost once as the bare number 0.02 and once as the
object with total 0.03, and with nonzero token counts. -/
def txC4 : String := txL1 ++ String.mk ['\x0a'] ++ txL2

/-- The same two cost forms but with no token fields at all: both token
totals stay zero, so the fallback estimate fires. -/
def txC4z : String :=
  "\x7b\"type\":\"message_end\",\"message\":\x7b\"role\":\"assistant\",\"usage\":\x7b\"cost\":0.02\x7d\x7d\x7d" ++
    String.mk ['\x0a'] ++ txL2

/-- A transcript whose single usage event carries a negative input count. -/
def txC8 : String := "\x7b\"type\":\"message_end\",\"message\":\x7b\"role\":\"assistant\",\"usage\":\x7b\"input\":-5,\"output\":1\x7d\x7d\x7d"

/-- A transcript line whose `message` field is not a dict: processing it
raises `AttributeError` inside the scan. -/
def txBad : String := "\x7b\"type\":\"message_end\",\"message\":5\x7d"

/-- A factory-droid transcript containing `error` in its first line and the
completion marker later. -/
def txC6 : String := "error" ++ String.mk ['\x0a'] ++ "Factory Droid Session Complete"

/-- A transcript with one assistant message carrying content but no usage
data. -/
def txC3 : String := "\x7b\"type\":\"message_end\",\"message\":\x7b\"role\":\"assistant\",\"content\":\"hi\"\x7d\x7d"

/-- The empty file system: no transcript was written. -/
def fsNone : FS := fun _ => none

/-- A file system with no main droid transcript but a non-empty auxiliary
command output. -/
def fs1 : FS := fun p => if p = fdCmdPath 0 then some "hello" else none

/-! ## The claims -/

/-- C1: for every transcript file (any path, any contents), the usage
extractor `populate_context_post_run` of both agents never raises an
exception to its caller: the uncaught-exception channel of both extractors
is always a normal return, and any exception raised inside the pi-mono body
is caught at the top level and converted into the metadata-only error
record. -/
theorem claim1_extractors_never_raise :
    (∀ (cfg : PiCfg) (fs : FS), exOk (piPopulateE cfg fs) = true) ∧
    (∀ (cfg : FdCfg) (fs : FS), exOk (fdPopulateE cfg fs) = true) ∧
    (∀ (cfg : PiCfg) (content : String) (e : PyErr), piBody cfg content = Except.error e →
      piPopulateContent cfg content = { metadata := some (piErrMeta cfg e) }) := by
  refine ⟨?_, ?_, ?_⟩
  · intro cfg fs
    unfold piPopulateE
    cases hf : piOutputFile fs with
    | none => rfl
    | some content =>
      dsimp only
      unfold pyTry
      cases hb : piBody cfg content with
      | ok c => rfl
      | error e => rfl
  · intro cfg fs
    unfold fdPopulateE
    cases hf : fs fdLogPath with
    | none => rfl
    | some content =>
      dsimp only
      unfold pyTry
      cases hb : fdBody cfg content with
      | ok c => rfl
      | error e => rfl
  · intro cfg content e h
    unfold piPopulateContent
    rw [h]

/-- C1 witness: on the empty file system the pi-mono extractor returns
normally, and the transcript whose `message` field is the number 5 raises
`AttributeError` inside the scan, which the top-level handler converts into
the metadata-only error record. -/
theorem claim1_witness :
    exOk (piPopulateE cfgA fsNone) = true ∧
    piPopulateContent cfgA txBad = { metadata := some (piErrMeta cfgA PyErr.attrError) } :=
  ⟨claim1_extractors_never_raise.1 cfgA fsNone,
   claim1_extractors_never_raise.2.2 cfgA txBad PyErr.attrError (by decide)⟩

/-- C2 counterexample: the claim says each agent records a missing-output
error marker in metadata; on the empty file system the factory-droid
extractor leaves the record untouched, with no metadata at all. -/
theorem claim2_counterexample :
    fdPopulate fcfg0 fsNone = ({} : Ctx) ∧ (({} : Ctx)).metadata = none :=
  ⟨rfl, rfl⟩

/-- C2 amended: when the transcript file is missing, the pi-mono extractor
always stores the metadata-only record whose error entry is
`No output file found` and does not raise; the factory-droid extractor does
not raise either, but it stores an error marker (`No main output file`)
only when some non-empty `command-i/stdout.txt` exists, and leaves the
record untouched otherwise. -/
theorem claim2_missing_file :
    (∀ (cfg : PiCfg) (fs : FS), piOutputFile fs = none →
        piPopulate cfg fs = { metadata := some (piMissingMeta cfg) } ∧
        exOk (piPopulateE cfg fs) = true) ∧
    (∀ (cfg : FdCfg) (fs : FS), fs fdLogPath = none →
        exOk (fdPopulateE cfg fs) = true ∧
        (fdFirstCmdOutput fs = none → fdPopulate cfg fs = ({} : Ctx)) ∧
        (∀ c, fdFirstCmdOutput fs = some c →
           fdPopulate cfg fs = { metadata := some (fdNoMainMeta cfg c) })) := by
  refine ⟨?_, ?_⟩
  · intro cfg fs h
    constructor
    · unfold piPopulate
      rw [h]
    · unfold piPopulateE
      rw [h]
      rfl
  · intro cfg fs h
    refine ⟨?_, ?_, ?_⟩
    · unfold fdPopulateE
      rw [h]
      rfl
    · intro h2
      unfold fdPopulate
      rw [h]
      unfold fdMissingCtx
      rw [h2]
    · intro c h2
      unfold fdPopulate
      rw [h]
      unfold fdMissingCtx
      rw [h2]

/-- C2 witness: the empty file system for pi-mono, and a file system with a
non-empty `command-0/stdout.txt` for factory-droid. -/
theorem claim2_witness :
    piPopulate cfgA fsNone = { metadata := some (piMissingMeta cfgA) } ∧
    fdPopulate fcfg0 fs1 = { metadata := some (fdNoMainMeta fcfg0 "hello") } :=
  ⟨(claim2_missing_file.1 cfgA fsNone rfl).1,
   (claim2_missing_file.2 fcfg0 fs1 rfl).2.2 "hello" (by decide)⟩

/-- Non-negativity of every populated numeric field of a record. -/
def ctxValNonNeg (c : Ctx) : Prop :=
  (∀ q, c.n_input_tokens = some q → 0 ≤ q.val) ∧
  (∀ q, c.n_output_tokens = some q → 0 ≤ q.val) ∧
  (∀ q, c.n_cache_tokens = some q → 0 ≤ q.val) ∧
  (∀ q, c.cost_usd = some q → 0 ≤ q.val)

/-- The gating condition of the fallback content pass: some line carries
the assistant-role and content markers. -/
def piAssistantContentB (content : String) : Bool :=
  (pyLines content).any (fun l =>
    strContains l "\"role\":\"assistant\"" && strContains l "\"content\"")

/-- C10: the cache token count written by the pi-mono extractor is exactly
the accumulated cacheRead amount: the record construction is invariant
under the cacheWrite total, the cache field of the built record is the
cacheRead total, and on every scan that completes, the populated cache
count is the cacheRead total, which is the sum of the per-line cacheRead
contributions of the well-formed assistant message_end usage events. -/
theorem claim10_cacheWrite_never_written :
    (∀ (cfg : PiCfg) (content : String) (tot : PiTotals) (w : Q),
        piBuild cfg content { tot with cacheWrite := w } = piBuild cfg content tot) ∧
    (∀ (cfg : PiCfg) (content : String) (tot : PiTotals),
        (piBuild cfg content tot).n_cache_tokens = some tot.cacheRead) ∧
    (∀ (cfg : PiCfg) (content : String) (tot : PiTotals),
        piScan (pyLines content) = Except.ok tot →
        (piPopulateContent cfg content).n_cache_tokens = some tot.cacheRead ∧
        tot.cacheRead.val = ((pyLines content).map (fun l => (piLineCacheRead l).val)).sum) := by
  refine ⟨fun cfg content tot w => piBuild_cacheWrite_irrel cfg content tot w,
    fun cfg content tot => piBuild_cache cfg content tot,
    fun cfg content tot h => ⟨?_, ?_⟩⟩
  · rw [piPopulateContent_ok cfg content tot h]
    exact piBuild_cache cfg content tot
  · have hsum := piScanAux_cacheRead (pyLines content) piZero tot h
    rw [hsum]
    simp [piZero, Q.val_zero]

/-- C10 witness: on the two-event cost transcript, the populated cache
count is the (zero) cacheRead total, and the per-line contributions sum to
zero. -/
theorem claim10_witness :
    (piPopulateContent cfgA txC4).n_cache_tokens = some ⟨0, 1⟩ ∧
    ((pyLines txC4).map (fun l => (piLineCacheRead l).val)).sum = 0 := by
  have h := (claim10_cacheWrite_never_written.2.2 cfgA txC4
    ⟨⟨1, 1⟩, ⟨2, 1⟩, ⟨0, 1⟩, ⟨0, 1⟩, ⟨500, 10000⟩⟩ (by decide))
  refine ⟨h.1, ?_⟩
  rw [← h.2]
  simp [Q.val]

/-- C8 counterexample: the claim asserts every produced record has
non-negative token counts; the transcript whose usage event carries
`input: -5` makes the pi-mono extractor report the input token count -5. -/
theorem claim8_counterexample :
    (piPopulateContent cfgA txC8).n_input_tokens = some ⟨-5, 1⟩ ∧
    (⟨-5, 1⟩ : Q).val < 0 := by
  constructor
  · decide
  · norm_num [Q.val]

/-- Non-negativity of every record the factory-droid builder produces. -/
theorem fdBuild_nonneg (cfg : FdCfg) (content : String) : ctxValNonNeg (fdBuild cfg content) := by
  unfold ctxValNonNeg fdBuild
  dsimp only
  refine ⟨?_, ?_, ?_, ?_⟩
  · intro q hq
    cases hli : cfg.last_instruction with
    | none => rw [hli] at hq; cases hq
    | some ins =>
      rw [hli] at hq
      simp only [Option.map_some', Option.some.injEq] at hq
      rw [← hq, Q.val_ofNat]
      positivity
  · intro q hq
    by_cases he : content.length / 4 > 0
    · rw [if_pos he] at hq
      simp only [Option.map_some', Option.some.injEq] at hq
      rw [← hq, Q.val_ofNat]
      positivity
    · rw [if_neg he] at hq
      cases hq
  · intro q hq
    cases hq
  · intro q hq
    by_cases ht : (match cfg.last_instruction with
        | some ins => some (max (ins.length / 4) 1)
        | none => none).getD 0 + (if content.length / 4 > 0 then
          some (content.length / 4) else none).getD 0 ≠ 0
    · rw [if_pos ht] at hq
      simp only [Option.some.injEq] at hq
      rw [← hq, Q.val_mul, Q.val_divNat, Q.val_ofNat]
      have hr := fdRate_nonneg cfg.droid_model
      have h1 : (0 : ℚ) ≤ (((match cfg.last_instruction with
          | some ins => some (max (ins.length / 4) 1)
          | none => none).getD 0 + (if content.length / 4 > 0 then
            some (content.length / 4) else none).getD 0 : ℕ) : ℚ) := by positivity
      have h2 : (0 : ℚ) ≤ ((((1000 : ℕ+) : ℕ)) : ℚ) := by positivity
      exact mul_nonneg (div_nonneg h1 h2) hr
    · rw [if_neg ht] at hq
      cases hq

/-- C8 amended: over rationals, the factory-droid extractor always
produces non-negative token counts and cost; the pi-mono extractor does so
for every transcript each of whose lines contributes non-negative amounts
(in particular whenever all usage fields are non-negative numbers), but it
propagates negative event values unclamped, as the counterexample shows. -/
theorem claim8_nonneg :
    (∀ (cfg : PiCfg) (content : String),
        (∀ l ∈ pyLines content, lineDeltaNonNeg l) →
        ctxValNonNeg (piPopulateContent cfg content)) ∧
    (∀ (cfg : FdCfg) (content : String), ctxValNonNeg (fdPopulateContent cfg content)) ∧
    (∀ (cfg : FdCfg) (fs : FS), ctxValNonNeg (fdPopulate cfg fs)) := by
  refine ⟨?_, ?_, ?_⟩
  · intro cfg content hall
    cases hs : piScan (pyLines content) with
    | error e =>
      rw [piPopulateContent_err cfg content e hs]
      exact ⟨fun q hq => Option.noConfusion hq, fun q hq => Option.noConfusion hq,
        fun q hq => Option.noConfusion hq, fun q hq => Option.noConfusion hq⟩
    | ok tot =>
      have hnn := piScanAux_nonneg (pyLines content) piZero tot hs piZero_nonneg hall
      obtain ⟨hn1, hn2, hn3, hn4, hn5⟩ := hnn
      rw [piPopulateContent_ok cfg content tot hs]
      have hcache := piBuild_cache cfg content tot
      by_cases hz : (tot.inp.isZero && tot.out.isZero) = true
      · obtain ⟨h1, h2, h3⟩ := piBuild_fallback cfg content tot hz
        refine ⟨?_, ?_, ?_, ?_⟩
        · intro q hq
          rw [h1] at hq
          rw [← Option.some.inj hq, Q.val_ofNat]
          positivity
        · intro q hq
          rw [h2] at hq
          rw [← Option.some.inj hq, Q.val_ofNat]
          positivity
        · intro q hq
          rw [hcache] at hq
          rw [← Option.some.inj hq]
          exact hn3
        · intro q hq
          rw [h3] at hq
          rw [← Option.some.inj hq]
          rw [Q.val_add, Q.val_mul, Q.val_mul, Q.val_divNat, Q.val_divNat, Q.val_divNat,
            Q.val_ofNat, Q.val_ofNat]
          have hr := piRate_nonneg cfg.provider
          have hc1 : (0 : ℚ) ≤ ((500 : ℕ) : ℚ) := by positivity
          have hc2 : (0 : ℚ) ≤ ((((1000 : ℕ+) : ℕ)) : ℚ) := by positivity
          have hc3 : (0 : ℚ) ≤ ((((5 : ℕ+) : ℕ)) : ℚ) := by positivity
          have hc4 : (0 : ℚ) ≤ (((max (piFallbackChars (pyLines content) / 4) 100 : ℕ)) : ℚ) := by
            positivity
          exact add_nonneg (mul_nonneg (div_nonneg hc1 hc2) (div_nonneg hr hc3))
            (mul_nonneg (div_nonneg hc4 hc2) hr)
      · rw [Bool.not_eq_true] at hz
        obtain ⟨h1, h2, h3⟩ := piBuild_direct cfg content tot hz
        refine ⟨?_, ?_, ?_, ?_⟩
        · intro q hq
          rw [h1] at hq
          rw [← Option.some.inj hq]
          exact hn1
        · intro q hq
          rw [h2] at hq
          rw [← Option.some.inj hq]
          exact hn2
        · intro q hq
          rw [hcache] at hq
          rw [← Option.some.inj hq]
          exact hn3
        · intro q hq
          rw [h3] at hq
          rw [← Option.some.inj hq]
          exact hn5
  · intro cfg content
    exact fdBuild_nonneg cfg content
  · intro cfg fs
    unfold fdPopulate
    cases hf : fs fdLogPath with
    | some content => exact fdBuild_nonneg cfg content
    | none =>
      unfold fdMissingCtx
      cases fdFirstCmdOutput fs with
      | some c =>
        exact ⟨fun q hq => Option.noConfusion hq, fun q hq => Option.noConfusion hq,
          fun q hq => Option.noConfusion hq, fun q hq => Option.noConfusion hq⟩
      | none =>
        exact ⟨fun q hq => Option.noConfusion hq, fun q hq => Option.noConfusion hq,
          fun q hq => Option.noConfusion hq, fun q hq => Option.noConfusion hq⟩

/-- C8 witness: the hypotheses hold for the empty transcript (no lines),
and the factory-droid record of a concrete transcript is non-negative. -/
theorem claim8_witness :
    ctxValNonNeg (piPopulateContent cfgA "") ∧ ctxValNonNeg (fdPopulateContent fcfg0 "x") :=
  ⟨claim8_nonneg.1 cfgA "" (by intro l hl; simp [pyLines, pySplitNl, splitNlAux] at hl),
   claim8_nonneg.2.1 fcfg0 "x"⟩

/-- C3: when a completed scan leaves both token totals at zero, the
pi-mono extractor applies the fallback heuristic: input tokens are set to
the constant 500, output tokens to the character count of assistant message
content divided by 4 (floored at 100), and the cost comes from the
per-provider cost-per-1000-tokens table with input five times cheaper than
output; moreover, whenever assistant message content exists in the
transcript, the reported input and output token counts are never both
exactly zero. -/
theorem claim3_fallback_estimate :
    (∀ (cfg : PiCfg) (content : String) (tot : PiTotals),
        piScan (pyLines content) = Except.ok tot → tot.inp.val = 0 → tot.out.val = 0 →
        (piPopulateContent cfg content).n_input_tokens = some (Q.ofNat 500) ∧
        (piPopulateContent cfg content).n_output_tokens =
          some (Q.ofNat (max (piFallbackChars (pyLines content) / 4) 100)) ∧
        (∃ c, (piPopulateContent cfg content).cost_usd = some c ∧
          c.val = 500 / 1000 * ((piRate cfg.provider).val / 5) +
            ((max (piFallbackChars (pyLines content) / 4) 100 : ℕ) : ℚ) / 1000 *
              (piRate cfg.provider).val)) ∧
    (∀ (cfg : PiCfg) (content : String), piAssistantContentB content = true →
        ∀ qi qo, (piPopulateContent cfg content).n_input_tokens = some qi →
          (piPopulateContent cfg content).n_output_tokens = some qo →
          ¬(qi.val = 0 ∧ qo.val = 0)) := by
  constructor
  · intro cfg content tot hscan hi ho
    have hz : (tot.inp.isZero && tot.out.isZero) = true := by
      rw [Bool.and_eq_true, Q.isZero_iff, Q.isZero_iff]
      exact ⟨hi, ho⟩
    rw [piPopulateContent_ok cfg content tot hscan]
    obtain ⟨h1, h2, h3⟩ := piBuild_fallback cfg content tot hz
    refine ⟨h1, h2, ⟨_, h3, ?_⟩⟩
    rw [Q.val_add, Q.val_mul, Q.val_mul, Q.val_divNat, Q.val_divNat, Q.val_divNat,
      Q.val_ofNat, Q.val_ofNat]
    norm_num [show ((1000 : ℕ+) : ℕ) = 1000 from rfl, show ((5 : ℕ+) : ℕ) = 5 from rfl]
  · intro cfg content _ qi qo hqi hqo hboth
    cases hs : piScan (pyLines content) with
    | error e =>
      rw [piPopulateContent_err cfg content e hs] at hqi
      exact Option.noConfusion hqi
    | ok tot =>
      rw [piPopulateContent_ok cfg content tot hs] at hqi hqo
      by_cases hz : (tot.inp.isZero && tot.out.isZero) = true
      · obtain ⟨h1, _, _⟩ := piBuild_fallback cfg content tot hz
        rw [h1] at hqi
        rw [← Option.some.inj hqi, Q.val_ofNat] at hboth
        norm_num at hboth
      · rw [Bool.not_eq_true] at hz
        obtain ⟨h1, h2, _⟩ := piBuild_direct cfg content tot hz
        rw [h1] at hqi
        rw [h2] at hqo
        rw [← Option.some.inj hqi, ← Option.some.inj hqo] at hboth
        rw [← Q.isZero_iff, ← Q.isZero_iff] at hboth
        rw [hboth.1, hboth.2] at hz
        cases hz

/-- C3 witness: the transcript with one assistant content message and no
usage events: the scan completes with zero totals, the fallback reports 500
input tokens, and the reported counts are not both zero. -/
theorem claim3_witness :
    (piPopulateContent cfgA txC3).n_input_tokens = some (Q.ofNat 500) ∧
    piAssistantContentB txC3 = true ∧
    ¬((Q.ofNat 500).val = 0 ∧ (Q.ofNat 100).val = 0) :=
  ⟨(claim3_fallback_estimate.1 cfgA txC3 piZero (by decide)
      (by simp [piZero, Q.val_zero]) (by simp [piZero, Q.val_zero])).1,
   by decide,
   claim3_fallback_estimate.2 cfgA txC3 (by decide) (Q.ofNat 500) (Q.ofNat 100)
     (by decide) (by decide)⟩

/-- C4 counterexample: on the transcript whose events carry the cost
exactly once as the bare number 0.02 and once as the object with total
0.03 but no token fields, the token totals stay zero, the fallback fires,
and the reported cost is 0.003 (the anthropic fallback estimate), not the
accumulated 0.05. -/
theorem claim4_counterexample :
    (piPopulateContent cfgA txC4z).cost_usd.map Q.val = some ((3 : ℚ) / 1000) ∧
    ((3 : ℚ) / 1000) ≠ 5 / 100 := by
  constructor
  · have h : (piPopulateContent cfgA txC4z).cost_usd =
        some ⟨15000000000, 5000000000000⟩ := by decide
    rw [h]
    simp only [Option.map_some', Option.some.injEq]
    norm_num [Q.val, show ((5000000000000 : ℕ+) : ℕ) = 5000000000000 from rfl]
  · norm_num

/-- C4 amended: the scan sums the bare-number and object-with-total cost
forms into one total (0.02 and 0.03 accumulate to exactly 0.05), and the
reported cost equals the accumulated total whenever the token totals are
not both zero (otherwise the fallback estimate overwrites it, as the
counterexample shows). -/
theorem claim4_cost_forms :
    piScan (pyLines txC4) = Except.ok ⟨⟨1, 1⟩, ⟨2, 1⟩, ⟨0, 1⟩, ⟨0, 1⟩, ⟨500, 10000⟩⟩ ∧
    (⟨500, 10000⟩ : Q).val = 5 / 100 ∧
    (∀ (cfg : PiCfg) (content : String) (tot : PiTotals),
        piScan (pyLines content) = Except.ok tot → ¬(tot.inp.val = 0 ∧ tot.out.val = 0) →
        (piPopulateContent cfg content).cost_usd = some tot.cost) := by
  refine ⟨by decide, by norm_num [Q.val, show ((10000 : ℕ+) : ℕ) = 10000 from rfl], ?_⟩
  intro cfg content tot hscan hnz
  by_cases hb : (tot.inp.isZero && tot.out.isZero) = true
  · rw [Bool.and_eq_true] at hb
    exact absurd ⟨(Q.isZero_iff _).mp hb.1, (Q.isZero_iff _).mp hb.2⟩ hnz
  · rw [Bool.not_eq_true] at hb
    rw [piPopulateContent_ok cfg content tot hscan]
    exact (piBuild_direct cfg content tot hb).2.2

/-- C4 witness: on the same two cost forms with nonzero token counts, the
reported cost is the accumulated 0.05 (500/10000 unnormalised). -/
theorem claim4_witness : (piPopulateContent cfgA txC4).cost_usd = some ⟨500, 10000⟩ :=
  claim4_cost_forms.2.2 cfgA txC4 ⟨⟨1, 1⟩, ⟨2, 1⟩, ⟨0, 1⟩, ⟨0, 1⟩, ⟨500, 10000⟩⟩ (by decide)
    (fun hz => absurd ((Q.isZero_iff ⟨1, 1⟩).mpr hz.1) (by decide))

/-- C6 counterexample: the claim covers both agents, but the factory-droid
extractor sets the success flag from the completion marker alone: on a
transcript whose first line contains `error` (and with no token
accumulation at all) the flag is still true. -/
theorem claim6_counterexample :
    metaGet (fdPopulateContent fcfg0 txC6) "success" = some (MVal.b true) ∧
    strContains (asciiLower ((pyLines txC6).getD 0 "")) "error" = true := by
  exact ⟨by decide, by decide⟩

/-- C6 amended: the pi-mono extractor sets the success flag exactly when
the first 20 lines contain neither `error` nor `failed` case-insensitively
and the accumulated output-token total is positive; the factory-droid
extractor instead sets it exactly when the transcript contains the
completion marker `Factory Droid Session Complete`. -/
theorem claim6_success_flag :
    (∀ (cfg : PiCfg) (content : String) (tot : PiTotals),
        piScan (pyLines content) = Except.ok tot →
        (metaGet (piPopulateContent cfg content) "success" = some (MVal.b true) ↔
          (piHasErrors content = false ∧ 0 < tot.out.val))) ∧
    (∀ (cfg : FdCfg) (content : String),
        metaGet (fdPopulateContent cfg content) "success" =
          some (MVal.b (strContains content fdSuccessLit))) := by
  constructor
  · intro cfg content tot hscan
    rw [piPopulateContent_ok cfg content tot hscan, piBuild_success]
    constructor
    · intro h
      simp only [Option.some.injEq, MVal.b.injEq, Bool.and_eq_true, Bool.not_eq_true'] at h
      exact ⟨h.1, (Q.isPos_iff tot.out).mp h.2⟩
    · intro h
      simp only [Option.some.injEq, MVal.b.injEq, Bool.and_eq_true, Bool.not_eq_true']
      exact ⟨h.1, (Q.isPos_iff tot.out).mpr h.2⟩
  · intro cfg content
    rfl

/-- C6 witness: a clean transcript with positive output tokens has the
success flag set. -/
theorem claim6_witness :
    metaGet (piPopulateContent cfgA txC4) "success" = some (MVal.b true) := by
  have h := claim6_success_flag.1 cfgA txC4
    ⟨⟨1, 1⟩, ⟨2, 1⟩, ⟨0, 1⟩, ⟨0, 1⟩, ⟨500, 10000⟩⟩ (by decide)
  exact h.mpr ⟨by decide, (Q.isPos_iff ⟨2, 1⟩).mp (by decide)⟩

/-- C5 counterexample: the claim says both agents reject an unrecognized
provider at construction time; the factory-droid constructor performs no
provider validation and succeeds on the provider `bogus`, silently falling
back to the default sonnet model. -/
theorem claim5_counterexample :
    fdInitE (some "bogus/whatever") none "medium" =
      Except.ok { droid_model := "claude-sonnet-4-20250514", reasoning_effort := "medium",
                  last_instruction := none } := by decide

/-- C5 amended: the pi-mono constructor fails for every provider outside
its allow-list, whether the provider is given explicitly or inside the
`provider/model` name, before any command is built; the factory-droid
constructor never fails, for any model name whatsoever. -/
theorem claim5_provider_validation :
    (∀ (p : String) (mn pm : Option String) (om : String) (ns : Bool), p ≠ "" →
        piProviders.contains p = false → exOk (piInit mn (some p) pm om ns) = false) ∧
    (∀ (prov rest : String) (pm : Option String) (om : String) (ns : Bool),
        prov.data.contains '/' = false → piProviders.contains prov = false →
        exOk (piInit (some (prov ++ "/" ++ rest)) none pm om ns) = false) ∧
    (∀ (mn dm : Option String) (re : String), exOk (fdInitE mn dm re) = true) := by
  refine ⟨?_, ?_, ?_⟩
  · intro p mn pm om ns hp hc
    have hfalsy : strFalsy (some p) = false := beq_eq_false_iff_ne.mpr hp
    have hmem : p ∉ piProviders := by simpa using hc
    simp [piInit, piResolve, hfalsy, hmem, exOk]
  · intro prov rest pm om ns hslash hc
    have hdata : (prov ++ "/" ++ rest).data = prov.data ++ '/' :: rest.data := by
      rw [strDataAppend, strDataAppend]
      simp
    have hne : ¬(prov ++ "/" ++ rest) = "" := by
      intro h
      have h2 := congrArg String.data h
      rw [hdata] at h2
      simp at h2
    have hcontains : '/' ∈ (prov ++ "/" ++ rest).data := by
      rw [hdata]
      simp
    have hmem : prov ∉ piProviders := by simpa using hc
    simp [piInit, piResolve, strFalsy, hne, hcontains, exOk,
      pySplit1_split prov rest hslash, hmem]
  · intro mn dm re
    rfl

/-- C5 witness: pi-mono rejects the provider `bogus` in both argument
forms; factory-droid construction succeeds unconditionally. -/
theorem claim5_witness :
    exOk (piInit none (some "bogus") none "json" false) = false ∧
    exOk (piInit (some ("bogus" ++ "/" ++ "m")) none none "json" false) = false ∧
    exOk (fdInitE none none "medium") = true :=
  ⟨claim5_provider_validation.1 "bogus" none none "json" false (by decide) (by decide),
   claim5_provider_validation.2.1 "bogus" "m" none "json" false (by decide) (by decide),
   claim5_provider_validation.2.2 none none "medium"⟩

/-- C7: both agents pass the instruction through `shlex.quote` and append
the quoted form as the final element of the command part list, and reading
the quoted instruction back with POSIX shell word splitting yields exactly
one word equal to the original instruction, with no character interpreted
as a shell metacharacter; the pi-mono main command embeds it between the
fixed flag prefix and the output redirection suffix. -/
theorem claim7_instruction_single_argument :
    (∀ instr : String, shWords (shlexQuote instr) = some [instr]) ∧
    (∀ (cfg : PiCfg) (instr : String),
        piCommandParts cfg instr = piCommandPartsPre cfg ++ [shlexQuote instr]) ∧
    (∀ (cfg : FdCfg) (instr : String),
        fdCommandParts cfg instr = fdCommandPartsPre cfg ++ [shlexQuote instr]) ∧
    (∀ (cfg : PiCfg) (ts : Nat) (instr : String),
        piMainCommand cfg ts instr =
          "cd /workspace && timeout " ++ natToStr ts ++ " " ++
            strJoin " " (piCommandPartsPre cfg) ++ " " ++ shlexQuote instr ++
            " 2>&1 | tee /logs/agent/pi_output.log") := by
  refine ⟨shlexQuote_single_word, fun cfg instr => rfl, fun cfg instr => rfl, ?_⟩
  intro cfg ts instr
  unfold piMainCommand
  rw [show piCommandParts cfg instr = piCommandPartsPre cfg ++ [shlexQuote instr] from rfl]
  rw [strJoin_append_singleton (piCommandPartsPre cfg) (shlexQuote instr)
    (by unfold piCommandPartsPre; simp)]
  simp [strAppend_assoc]

/-- C9: constructing the pi-mono agent with provider `openai` and model
name `openai/gpt-5.1-codex` yields the normalized model id
`gpt-5.1-codex`; in general `_normalize_model_id` strips the leading
`provider/` segment exactly when that segment equals the selected provider
case-insensitively, and leaves the model unchanged otherwise (in
particular whenever it has no slash). -/
theorem claim9_normalize_model_id :
    ((piInit (some "openai/gpt-5.1-codex") (some "openai") none "json" false).map
        (fun cfg => cfg.pi_model) = Except.ok (some "gpt-5.1-codex")) ∧
    (∀ (provider pre rest : String), pre.data.contains '/' = false →
        piNormalizeModelId provider (some (pre ++ "/" ++ rest)) =
          (if asciiLower pre = asciiLower provider then some rest
           else some (pre ++ "/" ++ rest))) ∧
    (∀ (provider m : String), m.data.contains '/' = false →
        piNormalizeModelId provider (some m) = some m) := by
  refine ⟨by decide, ?_, ?_⟩
  · intro provider pre rest h
    have hdata : (pre ++ "/" ++ rest).data = pre.data ++ '/' :: rest.data := by
      rw [strDataAppend, strDataAppend]
      simp
    have hne : ¬(pre ++ "/" ++ rest) = "" := by
      intro hh
      have h2 := congrArg String.data hh
      rw [hdata] at h2
      simp at h2
    unfold piNormalizeModelId
    dsimp only
    rw [if_neg hne, pySplit1_split pre rest h]
  · intro provider m h
    unfold piNormalizeModelId
    dsimp only
    by_cases hm : m = ""
    · rw [if_pos hm]
    · rw [if_neg hm, pySplit1_none m h]

/-- C9 witness: the prefix is stripped when it matches the provider up to
case, and a slash-free model id is left unchanged. -/
theorem claim9_witness :
    piNormalizeModelId "openai" (some ("OpenAI" ++ "/" ++ "gpt-x")) = some "gpt-x" ∧
    piNormalizeModelId "openai" (some "gpt-5.1-codex") = some "gpt-5.1-codex" := by
  constructor
  · rw [claim9_normalize_model_id.2.1 "openai" "OpenAI" "gpt-x" (by decide),
      if_pos (by decide)]
  · exact claim9_normalize_model_id.2.2 "openai" "gpt-5.1-codex" (by decide)
